import Mathlib

/-!
Shallow embedding of the VNS maintenance-team assignment engine of this
repository (`src/parte2/src/funcoes_objetivo.py`, `src/parte2/src/busca_local.py`,
`src/parte2/src/algoritmos_vns.py`).

Conventions of the embedding:
* the 0/1 numpy matrices `x_ij` (asset-to-base), `y_jk` (base-to-team) and
  `h_ik` (asset-to-team) are embedded as lists of rows of booleans;
* numpy floats are embedded as rationals (all quantities the code computes
  from 0/1 matrices and the distance matrix are exact);
* `np.where(...)[0][0]` (first index where a row/column is 1) is embedded as
  `List.find?` over the index range with a default of 0; the Python code
  would raise on an empty result, and the claims only quantify over inputs
  where the result is nonempty;
* calls to `np.random` are embedded as explicit oracle parameters (sampled
  index lists, coin flips, choice indices), universally quantified in the
  theorems so that every realizable draw of the original code is covered.
-/

/-- A 0/1 matrix, stored as a list of rows of booleans. -/
abbrev Mat := List (List Bool)

/-- Entry lookup, out-of-range entries read as 0 (`false`). -/
def getE (A : Mat) (i j : Nat) : Bool := (A.getD i []).getD j false

/-- Entry update; an out-of-range index leaves the matrix unchanged
(numpy arrays of the correct shape are always written in range). -/
def setE (A : Mat) (i j : Nat) (b : Bool) : Mat :=
  A.set i ((A.getD i []).set j b)

/-- Problem data held by `monitoramento`: the sizes `n_ativos`, `m_bases`,
`s_equipes`, the minimum-load fraction `eta` and the distance matrix. -/
structure Prob where
  n : Nat
  m : Nat
  s : Nat
  eta : ℚ
  dist : Nat → Nat → ℚ

/-- A solution triple `(x_ij, y_jk, h_ik)`. -/
structure Sol where
  x : Mat
  y : Mat
  h : Mat
  deriving DecidableEq

/-- Number of indices below `d` satisfying `f`. -/
def natCount (d : Nat) (f : Nat → Bool) : Nat := (List.range d).countP f

/-- Sum of a rational-valued function over `0, ..., d-1`. -/
def qSum (d : Nat) (f : Nat → ℚ) : ℚ := ((List.range d).map f).sum

/-- `np.sum(y_jk[:, k])`: number of bases hosting team `k`. -/
def somaEquipe (p : Prob) (y : Mat) (k : Nat) : Nat :=
  natCount p.m (fun j => getE y j k)

/-- `np.sum(h_ik[:, k])`: number of assets served by team `k`. -/
def ativosEquipe (p : Prob) (h : Mat) (k : Nat) : Nat :=
  natCount p.n (fun i => getE h i k)

/-- `np.sum(x_ij[i, :])`: number of bases asset `i` is assigned to. -/
def somaBasesAtivo (p : Prob) (x : Mat) (i : Nat) : Nat :=
  natCount p.m (fun j => getE x i j)

/-- `np.sum(h_ik[i, :])`: number of teams asset `i` belongs to. -/
def somaEquipesAtivo (p : Prob) (h : Mat) (i : Nat) : Nat :=
  natCount p.s (fun k => getE h i k)

/-- `np.sum(y_jk[j, :])`: number of teams hosted at base `j`. -/
def equipesNaBase (p : Prob) (y : Mat) (j : Nat) : Nat :=
  natCount p.s (fun k => getE y j k)

/-- `FuncoesObjetivo.calcular_f1` (funcoes_objetivo.py lines 16-35): for each
asset `i` in team `k`, add the distance from `i` to the first base where team
`k` is placed (the inner loop breaks at the first such base; if the team is
placed nowhere, nothing is added).  The argument `x` is unused, exactly as in
the source. -/
def calcular_f1 (p : Prob) (x h y : Mat) : ℚ :=
  qSum p.n (fun i => qSum p.s (fun k =>
    if getE h i k then
      match (List.range p.m).find? (fun j => getE y j k) with
      | some j => p.dist i j
      | none => 0
    else 0))

/-- Number of teams with at least one asset (`np.sum(ativos_por_equipe > 0)`). -/
def equipesUtilizadas (p : Prob) (h : Mat) : Nat :=
  natCount p.s (fun k => decide (0 < ativosEquipe p h k))

/-- `FuncoesObjetivo.calcular_f2` (funcoes_objetivo.py lines 37-46). -/
def calcular_f2 (p : Prob) (h : Mat) : ℚ := (equipesUtilizadas p h : ℚ)

/-- Restriction 1 of `calcular_violacao` (lines 55-70): per team, penalties
for being placed at more than one base, for having assets while not placed at
exactly one base, and for being placed at one base with no assets. -/
def viol1 (p : Prob) (y h : Mat) : ℚ :=
  qSum p.s (fun k =>
    (if 1 < somaEquipe p y k then ((somaEquipe p y k : ℚ) - 1) ^ 2 else 0) +
    (if 0 < ativosEquipe p h k ∧ somaEquipe p y k ≠ 1 then
      |(somaEquipe p y k : ℚ) - 1| ^ 2 else 0) +
    (if somaEquipe p y k = 1 ∧ ativosEquipe p h k = 0 then 1 else 0))

/-- Restriction 2 (lines 72-76): each asset in exactly one base. -/
def viol2 (p : Prob) (x : Mat) : ℚ :=
  qSum p.n (fun i =>
    if somaBasesAtivo p x i ≠ 1 then ((somaBasesAtivo p x i : ℚ) - 1) ^ 2 else 0)

/-- Restriction 3 (lines 78-83): an asset's base must host at least one team. -/
def viol3 (p : Prob) (x y : Mat) : ℚ :=
  qSum p.n (fun i => qSum p.m (fun j =>
    if getE x i j ∧ equipesNaBase p y j = 0 then 1 else 0))

/-- Restriction 4 (lines 85-89): each asset in exactly one team. -/
def viol4 (p : Prob) (h : Mat) : ℚ :=
  qSum p.n (fun i =>
    if somaEquipesAtivo p h i ≠ 1 then ((somaEquipesAtivo p h i : ℚ) - 1) ^ 2 else 0)

/-- Restriction 5 (lines 91-101): an asset's team must be placed at the first
base the asset is assigned to (no penalty if the asset has no base). -/
def viol5 (p : Prob) (x y h : Mat) : ℚ :=
  qSum p.n (fun i => qSum p.s (fun k =>
    if getE h i k then
      match (List.range p.m).find? (fun j => getE x i j) with
      | some j => if getE y j k then 0 else 1
      | none => 0
    else 0))

/-- Restriction 6 (lines 103-109): each active team must serve at least
`eta * n_ativos / s_equipes` assets. -/
def viol6 (p : Prob) (h : Mat) : ℚ :=
  qSum p.s (fun k =>
    if 0 < ativosEquipe p h k ∧ (ativosEquipe p h k : ℚ) < p.eta * p.n / p.s then
      (p.eta * p.n / p.s - ativosEquipe p h k) ^ 2 else 0)

/-- `FuncoesObjetivo.calcular_violacao` (funcoes_objetivo.py lines 48-111). -/
def calcular_violacao (p : Prob) (x y h : Mat) : ℚ :=
  viol1 p y h + viol2 p x + viol3 p x y + viol4 p h + viol5 p x y h + viol6 p h

/-- `FuncoesObjetivo.verificar_restricoes` without epsilon (lines 113-122). -/
def verificar_restricoes (p : Prob) (x y h : Mat) : Bool :=
  decide (calcular_violacao p x y h = 0)


/-- The six constraint families of the data model, stated as the claim states
them: each used team placed at exactly one base; each asset in exactly one
base; each asset's base hosts at least one team; each asset in exactly one
team; each asset's team placed at the asset's own base; each active team
serving at least `eta * n_ativos / s_equipes` assets. -/
def sixFamilies (p : Prob) (x y h : Mat) : Prop :=
  (∀ k, k < p.s → 0 < ativosEquipe p h k → somaEquipe p y k = 1) ∧
  (∀ i, i < p.n → somaBasesAtivo p x i = 1) ∧
  (∀ i, i < p.n → ∀ j, j < p.m → getE x i j = true → 0 < equipesNaBase p y j) ∧
  (∀ i, i < p.n → somaEquipesAtivo p h i = 1) ∧
  (∀ i, i < p.n → ∀ k, k < p.s → getE h i k = true →
    ∀ j, j < p.m → getE x i j = true → getE y j k = true) ∧
  (∀ k, k < p.s → 0 < ativosEquipe p h k → p.eta * p.n / p.s ≤ (ativosEquipe p h k : ℚ))

/-- Additional condition actually enforced by `calcular_violacao` (restriction
1, third clause): a team with no assets may not be placed at a base. -/
def placedTeamsUsed (p : Prob) (y h : Mat) : Prop :=
  ∀ k, k < p.s → ativosEquipe p h k = 0 → somaEquipe p y k = 0

/-- Instance refuting claim C1 as stated: one asset, one base, two teams. -/
def probC1 : Prob := ⟨1, 1, 2, 1, fun _ _ => 0⟩

/-- Assignment matrix of the C1 counterexample: the asset sits at base 0. -/
def xC1 : Mat := [[true]]

/-- Placement matrix of the C1 counterexample: both teams at base 0; team 1
is placed but serves no asset. -/
def yC1 : Mat := [[true, true]]

/-- Membership matrix of the C1 counterexample: the asset in team 0 only. -/
def hC1 : Mat := [[true, false]]


/-- The active objective, `'f1'` or `'f2'` in the source's string dispatch. -/
inductive Obj where
  | f1 : Obj
  | f2 : Obj
  deriving DecidableEq

/-- Objective value of a solution under the active objective, as computed by
the `if funcao_objetivo == 'f1'` dispatch throughout `busca_local.py`. -/
def objVal (p : Prob) (o : Obj) (sol : Sol) : ℚ :=
  match o with
  | .f1 => calcular_f1 p sol.x sol.h sol.y
  | .f2 => calcular_f2 p sol.h

/-- Violation of a solution triple. -/
def violSol (p : Prob) (sol : Sol) : ℚ := calcular_violacao p sol.x sol.y sol.h

/-- `BuscaLocal.tournament_selection` (busca_local.py lines 17-64): feasibility
first comparison of the current solution `xSol` and the candidate `ySol`;
returns the chosen solution and whether the candidate was accepted. -/
def tournament_selection (p : Prob) (o : Obj) (xSol ySol : Sol) : Sol × Bool :=
  if violSol p xSol = 0 ∧ violSol p ySol = 0 then
    (if objVal p o ySol < objVal p o xSol then (ySol, true) else (xSol, false))
  else if violSol p ySol = 0 ∧ 0 < violSol p xSol then (ySol, true)
  else if violSol p xSol = 0 ∧ 0 < violSol p ySol then (xSol, false)
  else if violSol p ySol < violSol p xSol then (ySol, true) else (xSol, false)


/-- `np.where(v == 1)[0][0]`: first index below `d` satisfying `f`, with
default 0 (the Python code would raise on an empty result; the claims only
cover inputs where the result exists). -/
def firstIdx (d : Nat) (f : Nat → Bool) : Nat :=
  ((List.range d).find? f).getD 0

/-- `np.argmin(vals[l])` over an index list: the first index of `l`
attaining the minimal value (numpy returns the first minimiser). -/
def argminList (f : Nat → Nat) : List Nat → Nat
  | [] => 0
  | a :: t => t.foldl (fun b c => if f c < f b then c else b) a

/-- `np.argmax(vals[l])` over an index list: the first index of `l`
attaining the maximal value. -/
def argmaxList (f : Nat → Nat) : List Nat → Nat
  | [] => 0
  | a :: t => t.foldl (fun b c => if f b < f c then c else b) a

/-- `np.where(y_jk[j, :] == 1)[0]`: teams hosted at base `j`, ascending. -/
def equipesDaBase (p : Prob) (y : Mat) (j : Nat) : List Nat :=
  (List.range p.s).filter (fun k => getE y j k)

/-- `np.where(y_jk[:, k] == 1)[0]`: bases hosting team `k`, ascending. -/
def basesDaEquipe (p : Prob) (y : Mat) (k : Nat) : List Nat :=
  (List.range p.m).filter (fun j => getE y j k)

/-- `np.where(np.sum(y_jk, axis=1) > 0)[0]`: bases hosting some team. -/
def basesComEquipes (p : Prob) (y : Mat) : List Nat :=
  (List.range p.m).filter (fun j => decide (0 < equipesNaBase p y j))

/-- `np.where(np.sum(y_jk, axis=1) == 0)[0]`: bases hosting no team. -/
def basesVazias (p : Prob) (y : Mat) : List Nat :=
  (List.range p.m).filter (fun j => decide (equipesNaBase p y j = 0))

/-- `np.where(h_ik[:, k] == 1)[0]`: assets served by team `k`, ascending. -/
def ativosDaEquipe (p : Prob) (h : Mat) (k : Nat) : List Nat :=
  (List.range p.n).filter (fun i => getE h i k)

/-- Accumulator of the best-improvement loops of `busca_local.py`: the best
solution so far (`melhor_x, melhor_y, melhor_h`), its objective value
(`melhor_valor`) and the `melhorou` flag. -/
structure BestAcc where
  sol : Sol
  val : ℚ
  imp : Bool

/-- One candidate test of a best-improvement loop: accept the candidate when
it satisfies all restrictions and strictly improves on the best value so far
(busca_local.py lines 91-100 and the analogous blocks of the other
neighbourhoods). -/
def bestStep (p : Prob) (o : Obj) (acc : BestAcc) (c : Sol) : BestAcc :=
  if verificar_restricoes p c.x c.y c.h = true ∧ objVal p o c < acc.val then
    ⟨c, objVal p o c, true⟩
  else acc

/-- A whole best-improvement loop over a candidate list, starting from the
input solution and its objective value with `melhorou = False`. -/
def bestFold (p : Prob) (o : Obj) (init : Sol) (cands : List Sol) : BestAcc :=
  cands.foldl (bestStep p o) ⟨init, objVal p o init, false⟩

/-- Candidate moves of `BuscaLocal.shift_ativo_equipe` (lines 66-102): for
each asset, each other team hosted at the asset's current base. -/
def shiftCands (p : Prob) (x y h : Mat) : List Sol :=
  (List.range p.n).flatMap (fun i =>
    ((equipesDaBase p y (firstIdx p.m (fun j => getE x i j))).filter
      (fun k => k != firstIdx p.s (fun k' => getE h i k'))).map
      (fun k => ⟨x, y, setE (setE h i (firstIdx p.s (fun k' => getE h i k')) false) i k true⟩))

/-- `BuscaLocal.shift_ativo_equipe` (busca_local.py lines 66-102). -/
def shift_ativo_equipe (p : Prob) (o : Obj) (x y h : Mat) : Sol × ℚ × Bool :=
  let a := bestFold p o ⟨x, y, h⟩ (shiftCands p x y h)
  (a.sol, a.val, a.imp)

/-- Candidate moves of `BuscaLocal.task_move` (lines 105-160): each asset is
tried on its (up to) 3 nearest team-hosting bases other than its own,
joining the least-loaded team of that base.  `np.argsort` is embedded as a
stable sort on distance (numpy's quicksort may order ties differently, which
none of the claims depend on). -/
def taskMoveCands (p : Prob) (x y h : Mat) : List Sol :=
  (List.range p.n).flatMap (fun i =>
    let baseAtual := firstIdx p.m (fun j => getE x i j)
    let bce := basesComEquipes p y
    if 1 < bce.length then
      (((List.insertionSort (fun a b => p.dist i a ≤ p.dist i b) bce).take
          (min 3 bce.length)).filter (fun j => j != baseAtual)).filterMap (fun j =>
        let equipesNova := equipesDaBase p y j
        if equipesNova ≠ [] then
          some ⟨setE (setE x i baseAtual false) i j true, y,
            setE (setE h i (firstIdx p.s (fun k => getE h i k)) false) i
              (argminList (fun k => ativosEquipe p h k) equipesNova) true⟩
        else none)
    else [])

/-- `BuscaLocal.task_move` (busca_local.py lines 105-160). -/
def task_move (p : Prob) (o : Obj) (x y h : Mat) : Sol × ℚ × Bool :=
  let a := bestFold p o ⟨x, y, h⟩ (taskMoveCands p x y h)
  (a.sol, a.val, a.imp)

/-- Candidate moves of `BuscaLocal.swap_ativos_bases` (lines 162-218): for
each sampled asset `i` and each later asset `j` at a different base, exchange
their bases and put each on the first team of its new base.  The sampled
asset list (`np.random.choice(n_ativos, min(20, n_ativos), replace=False)`)
is an explicit parameter. -/
def swapCands (p : Prob) (x y h : Mat) (sample : List Nat) : List Sol :=
  sample.flatMap (fun i =>
    let baseI := firstIdx p.m (fun j => getE x i j)
    let equipeI := firstIdx p.s (fun k => getE h i k)
    ((List.range p.n).drop (i + 1)).filterMap (fun j =>
      let baseJ := firstIdx p.m (fun j' => getE x j j')
      let equipeJ := firstIdx p.s (fun k => getE h j k)
      if baseI ≠ baseJ then
        let ebj := equipesDaBase p y baseJ
        let ebi := equipesDaBase p y baseI
        if ebj ≠ [] ∧ ebi ≠ [] then
          some ⟨setE (setE (setE (setE x i baseI false) i baseJ true) j baseJ false) j baseI true,
            y,
            setE (setE (setE (setE h i equipeI false) j equipeJ false) i (ebj.headD 0) true)
              j (ebi.headD 0) true⟩
        else none
      else none))

/-- `BuscaLocal.swap_ativos_bases` (busca_local.py lines 162-218). -/
def swap_ativos_bases (p : Prob) (o : Obj) (x y h : Mat) (sample : List Nat) :
    Sol × ℚ × Bool :=
  let a := bestFold p o ⟨x, y, h⟩ (swapCands p x y h sample)
  (a.sol, a.val, a.imp)

/-- Candidate moves of `BuscaLocal.two_opt_equipes` (lines 220-267): each
active team, together with all its assets, is tried on each empty base. -/
def twoOptCands (p : Prob) (x y h : Mat) : List Sol :=
  (List.range p.s).flatMap (fun k =>
    match basesDaEquipe p y k with
    | [] => []
    | baseAtual :: _ =>
      let ativosK := ativosDaEquipe p h k
      if ativosK ≠ [] then
        (basesVazias p y).map (fun j =>
          ⟨ativosK.foldl (fun A a => setE (setE A a baseAtual false) a j true) x,
            setE (setE y baseAtual k false) j k true, h⟩)
      else [])

/-- `BuscaLocal.two_opt_equipes` (busca_local.py lines 220-267). -/
def two_opt_equipes (p : Prob) (o : Obj) (x y h : Mat) : Sol × ℚ × Bool :=
  let a := bestFold p o ⟨x, y, h⟩ (twoOptCands p x y h)
  (a.sol, a.val, a.imp)

/-- `np.where(ativos_por_equipe > 0)[0]`: the active teams, ascending. -/
def equipesAtivas (p : Prob) (h : Mat) : List Nat :=
  (List.range p.s).filter (fun k => decide (0 < ativosEquipe p h k))

/-- `equipe_menor` of `consolidate_equipes`: first least-loaded active team. -/
def consolidateMenor (p : Prob) (h : Mat) : Nat :=
  argminList (fun k => ativosEquipe p h k) (equipesAtivas p h)

/-- `equipe_maior` of `consolidate_equipes`: first most-loaded active team. -/
def consolidateMaior (p : Prob) (h : Mat) : Nat :=
  argmaxList (fun k => ativosEquipe p h k) (equipesAtivas p h)

/-- `base_equipe_menor`: the base hosting the least-loaded team. -/
def consolidateBaseMenor (p : Prob) (y h : Mat) : Nat :=
  firstIdx p.m (fun j => getE y j (consolidateMenor p h))

/-- `base_equipe_maior`: the base hosting the most-loaded team. -/
def consolidateBaseMaior (p : Prob) (y h : Mat) : Nat :=
  firstIdx p.m (fun j => getE y j (consolidateMaior p h))

/-- `outras_equipes_mesma_base`: other teams at the least-loaded team's base. -/
def consolidateOutras (p : Prob) (y h : Mat) : List Nat :=
  (equipesDaBase p y (consolidateBaseMenor p y h)).filter
    (fun k => k != consolidateMenor p h)

/-- Strategy-1 candidate of `BuscaLocal.consolidate_equipes` (lines 296-316):
move every asset of the least-loaded active team to team `dest` of the same
base and vacate the placement of the least-loaded team. -/
def consolidateCand1 (p : Prob) (x y h : Mat) (dest : Nat) : Sol :=
  ⟨x, setE y (consolidateBaseMenor p y h) (consolidateMenor p h) false,
    (ativosDaEquipe p h (consolidateMenor p h)).foldl
      (fun H a => setE (setE H a (consolidateMenor p h) false) a dest true) h⟩

/-- Acceptance test of strategy 1: candidate feasible and `f2` strictly
improved over the input (the loop breaks at the first success). -/
def consolidatePred (p : Prob) (x y h : Mat) (dest : Nat) : Bool :=
  verificar_restricoes p (consolidateCand1 p x y h dest).x
      (consolidateCand1 p x y h dest).y (consolidateCand1 p x y h dest).h &&
    decide (objVal p Obj.f2 (consolidateCand1 p x y h dest) < calcular_f2 p h)

/-- Strategy-2 candidate of `BuscaLocal.consolidate_equipes` (lines 318-347):
move every asset of the least-loaded team (and each such asset's base
assignment) to the most-loaded team and its base, vacating the placement of
the least-loaded team. -/
def consolidateCand2 (p : Prob) (x y h : Mat) : Sol :=
  ⟨(ativosDaEquipe p h (consolidateMenor p h)).foldl
      (fun A a => setE (setE A a (consolidateBaseMenor p y h) false) a
        (consolidateBaseMaior p y h) true) x,
    setE y (consolidateBaseMenor p y h) (consolidateMenor p h) false,
    (ativosDaEquipe p h (consolidateMenor p h)).foldl
      (fun H a => setE (setE H a (consolidateMenor p h) false) a
        (consolidateMaior p h) true) h⟩

/-- `BuscaLocal.consolidate_equipes` (busca_local.py lines 269-349): only
active for the `'f2'` objective and when more than one team is active;
strategy 1 merges the least-loaded active team into the first improving
feasible other team of the same base, otherwise strategy 2 merges it into
the most-loaded active team anywhere. -/
def consolidate_equipes (p : Prob) (o : Obj) (x y h : Mat) : Sol × ℚ × Bool :=
  if o = Obj.f2 then
    if 1 < (equipesAtivas p h).length then
      match (consolidateOutras p y h).find? (consolidatePred p x y h) with
      | some dest =>
        (consolidateCand1 p x y h dest, objVal p Obj.f2 (consolidateCand1 p x y h dest),
          true)
      | none =>
        if consolidateMaior p h ≠ consolidateMenor p h then
          if verificar_restricoes p (consolidateCand2 p x y h).x
              (consolidateCand2 p x y h).y (consolidateCand2 p x y h).h = true ∧
              objVal p Obj.f2 (consolidateCand2 p x y h) < calcular_f2 p h then
            (consolidateCand2 p x y h, objVal p Obj.f2 (consolidateCand2 p x y h), true)
          else (⟨x, y, h⟩, objVal p o ⟨x, y, h⟩, false)
        else (⟨x, y, h⟩, objVal p o ⟨x, y, h⟩, false)
    else (⟨x, y, h⟩, objVal p o ⟨x, y, h⟩, false)
  else (⟨x, y, h⟩, objVal p o ⟨x, y, h⟩, false)


/-- The contract of a neighbourhood operator claimed in C3, for input
solution `inp` and result `r = (solution, value, improved)`: an improving
result is feasible and strictly better on the active objective, and a
non-improving result is the unchanged input. -/
def returnsImprovedFeasible (p : Prob) (o : Obj) (inp : Sol) (r : Sol × ℚ × Bool) : Prop :=
  (r.2.2 = true → violSol p r.1 = 0 ∧ objVal p o r.1 < objVal p o inp) ∧
  (r.2.2 = false → r.1 = inp)

/-- Tiny feasible witness instance: 2 assets, 1 base, 1 team. -/
def probW : Prob := ⟨2, 1, 1, 1, fun _ _ => 0⟩

/-- Witness assignment: both assets at base 0. -/
def xW : Mat := [[true], [true]]

/-- Witness placement: team 0 at base 0. -/
def yW : Mat := [[true]]

/-- Witness membership: both assets in team 0. -/
def hW : Mat := [[true], [true]]


/-- Shape of a matrix: the list of its row lengths. -/
def matShape (A : Mat) : List Nat := A.map List.length

/-- The numpy shapes of a solution triple: `x` is `n × m`, `y` is `m × s`,
`h` is `n × s`. -/
def shapeOk (p : Prob) (x y h : Mat) : Prop :=
  x.length = p.n ∧ (∀ r ∈ x, r.length = p.m) ∧
  y.length = p.m ∧ (∀ r ∈ y, r.length = p.s) ∧
  h.length = p.n ∧ (∀ r ∈ h, r.length = p.s)


/-- The key strictly decreased by every accepted Tournament-Selection
replacement: lexicographic (violation, objective). -/
def keyLt (p : Prob) (o : Obj) (a b : Sol) : Prop :=
  violSol p a < violSol p b ∨ (violSol p a = violSol p b ∧ objVal p o a < objVal p o b)

instance (p : Prob) (o : Obj) (a b : Sol) : Decidable (keyLt p o a b) := by
  unfold keyLt
  infer_instance

/-- Exploration of neighbourhood `l` (`neighborhoods[l](...)` in
`variable_neighborhood_descent`, busca_local.py lines 446-486): the order is
Shift, TaskMove, Swap, TwoOpt and (for `'f2'`) Consolidate; the swap
neighbourhood consumes the given random `sample`. -/
def exploreS (p : Prob) (o : Obj) (sample : List Nat) (l : Nat) (sol : Sol) :
    Sol × ℚ × Bool :=
  match l with
  | 0 => shift_ativo_equipe p o sol.x sol.y sol.h
  | 1 => task_move p o sol.x sol.y sol.h
  | 2 => swap_ativos_bases p o sol.x sol.y sol.h sample
  | 3 => two_opt_equipes p o sol.x sol.y sol.h
  | _ => consolidate_equipes p o sol.x sol.y sol.h

/-- `l_max = len(neighborhoods)`: 4 neighbourhoods for `'f1'`, 5 for `'f2'`. -/
def lmax : Obj → Nat
  | .f1 => 4
  | .f2 => 5

/-- State of the VND loop: current solution, current value (`valor_atual`),
neighbourhood index `l`, and a counter indexing the random draws consumed so
far (each exploration advances it; only the swap neighbourhood reads it). -/
structure VndSt where
  sol : Sol
  val : ℚ
  l : Nat
  t : Nat
  deriving DecidableEq

/-- One iteration of the VND `while l < l_max` loop (busca_local.py lines
481-502): explore neighbourhood `l`, compare through Tournament Selection;
on acceptance adopt the explored solution and value and reset `l` to 0,
otherwise keep the solution and advance `l`. -/
def vndStep (p : Prob) (o : Obj) (sampler : Nat → List Nat) (st : VndSt) : VndSt :=
  if (tournament_selection p o st.sol (exploreS p o (sampler st.t) st.l st.sol).1).2 = true then
    ⟨(tournament_selection p o st.sol (exploreS p o (sampler st.t) st.l st.sol).1).1,
      (exploreS p o (sampler st.t) st.l st.sol).2.1, 0, st.t + 1⟩
  else ⟨st.sol, st.val, st.l + 1, st.t + 1⟩

/-- `BuscaLocal.variable_neighborhood_descent` (busca_local.py lines
432-507) as a fuelled loop: returns the final solution and value once `l`
reaches `l_max`, or `none` if the fuel runs out first (the termination
theorem shows some fuel always suffices). -/
def vndFuel (p : Prob) (o : Obj) (sampler : Nat → List Nat) :
    Nat → VndSt → Option (Sol × ℚ)
  | fuel, st =>
    if lmax o ≤ st.l then some (st.sol, st.val)
    else
      match fuel with
      | 0 => none
      | fuel' + 1 => vndFuel p o sampler fuel' (vndStep p o sampler st)

/-- Initial VND state: the input solution, its objective value, `l = 0`. -/
def vndInit (p : Prob) (o : Obj) (sol : Sol) (t0 : Nat) : VndSt :=
  ⟨sol, objVal p o sol, 0, t0⟩

/-- All boolean rows of a given length. -/
def allRows : Nat → List (List Bool)
  | 0 => [[]]
  | n + 1 => (allRows n).flatMap (fun r => [false :: r, true :: r])

/-- All boolean matrices of a given shape (list of row lengths). -/
def allMatsOfShape : List Nat → List Mat
  | [] => [[]]
  | c :: cs => (allMatsOfShape cs).flatMap (fun M => (allRows c).map (fun r => r :: M))

/-- All solution triples of given component shapes. -/
def allSolsOfShape (sx sy sh : List Nat) : List Sol :=
  (allMatsOfShape sx).flatMap (fun a =>
    (allMatsOfShape sy).flatMap (fun b =>
      (allMatsOfShape sh).map (fun c => ⟨a, b, c⟩)))

/-- Termination measure: the number of same-shaped solutions whose key is
strictly below the current solution's key. -/
def vndMeasure (p : Prob) (o : Obj) (sx sy sh : List Nat) (sol : Sol) : Nat :=
  (allSolsOfShape sx sy sh).countP (fun s' => decide (keyLt p o s' sol))


/-- `n_perturbacoes` of `shake_adaptativo` (busca_local.py lines 517-518):
`min(max(5, int(n_ativos * intensidade * 0.15)), n_ativos // 3)`. -/
def shakeN (p : Prob) (intensidade : ℚ) : Nat :=
  min (max 5 (Int.toNat ⌊(p.n : ℚ) * intensidade * (15 / 100)⌋)) (p.n / 3)

/-- `base_atual` of a shake iteration: the first base of asset `i`. -/
def shakeBaseAtual (p : Prob) (xs : Mat) (i : Nat) : Nat :=
  firstIdx p.m (fun j => getE xs i j)

/-- `bases_validas` of a shake iteration: team-hosting bases other than the
asset's current base (busca_local.py lines 526-527). -/
def shakeBasesValidas (p : Prob) (xs ys : Mat) (i : Nat) : List Nat :=
  (basesComEquipes p ys).filter (fun j => j != shakeBaseAtual p xs i)

/-- `nova_base` of a shake iteration (busca_local.py lines 530-537): with the
70% coin, one of the up-to-3 nearest valid bases, else any valid base; the
random choice is an oracle index reduced modulo the option count.  As in
`task_move`, `np.argsort` is embedded as a stable sort on distance. -/
def shakeNovaBase (p : Prob) (xs ys : Mat) (i : Nat) (coin : Bool) (pick : Nat) : Nat :=
  if coin then
    ((List.insertionSort (fun a b => p.dist i a ≤ p.dist i b)
        (shakeBasesValidas p xs ys i)).take
      (min 3 (shakeBasesValidas p xs ys i).length)).getD
      (pick % ((List.insertionSort (fun a b => p.dist i a ≤ p.dist i b)
          (shakeBasesValidas p xs ys i)).take
        (min 3 (shakeBasesValidas p xs ys i).length)).length) 0
  else
    (shakeBasesValidas p xs ys i).getD (pick % (shakeBasesValidas p xs ys i).length) 0

/-- `h_shake` after removing asset `i` from its first team (line 544-545). -/
def shakeRemovedH (p : Prob) (h : Mat) (i : Nat) : Mat :=
  setE h i (firstIdx p.s (fun k => getE h i k)) false

/-- Execution of one accepted shake move (busca_local.py lines 539-552):
asset `i` moves to base `nb`, leaves its first team, and joins the
least-loaded team of `nb` (loads counted after the removal). -/
def shakeMove (p : Prob) (st : Sol) (i nb : Nat) : Sol :=
  ⟨setE (setE st.x i (shakeBaseAtual p st.x i) false) i nb true, st.y,
    if equipesDaBase p st.y nb ≠ [] then
      setE (shakeRemovedH p st.h i) i
        (argminList (fun k => ativosEquipe p (shakeRemovedH p st.h i) k)
          (equipesDaBase p st.y nb)) true
    else shakeRemovedH p st.h i⟩

/-- One iteration of the `for i in ativos_perturbar` loop of
`shake_adaptativo`: no move when no other base hosts a team. -/
def shakeStep (p : Prob) (coin : Bool) (pick : Nat) (st : Sol) (i : Nat) : Sol :=
  if shakeBasesValidas p st.x st.y i ≠ [] then
    shakeMove p st i (shakeNovaBase p st.x st.y i coin pick)
  else st

/-- `BuscaLocal.shake_adaptativo` (busca_local.py lines 509-554): the sampled
distinct assets are the first `n_perturbacoes` entries of the oracle
permutation `perm`; `coin` and `pick` are the per-iteration random draws. -/
def shake_adaptativo (p : Prob) (sol : Sol) (intensidade : ℚ) (perm : List Nat)
    (coin : Nat → Bool) (pick : Nat → Nat) : Sol :=
  ((perm.take (shakeN p intensidade)).enum).foldl
    (fun st ia => shakeStep p (coin ia.1) (pick ia.1) st ia.2) sol

/-- State of the single-objective GVNS driver loop (algoritmos_vns.py lines
47-102): current solution, outer iteration counter, shake index `k`,
no-improvement counter, and the oracle index. -/
structure VnsSt where
  sol : Sol
  iter : Nat
  k : Nat
  semMelhoria : Nat
  t : Nat

/-- `intensidade_shake = 0.2 + (k / k_max_shake) * 0.6` with `k_max_shake = 3`. -/
def vnsIntensity (k : Nat) : ℚ := 1 / 5 + (k : ℚ) / 3 * (3 / 5)

/-- `AlgoritmoVNS.vns` main loop (algoritmos_vns.py lines 53-102) as a
fuelled recursion: while the outer iteration count is below `maxIter`, run
the inner `while k <= 3` loop (shake, VND, Tournament Selection; acceptance
adopts the VND result, resets `k` to 1 and the no-improvement counter to 0,
rejection increments `k`); when `k` exhausts, the no-improvement counter is
incremented and the loop stops early once it reaches `maxSem`.  Returns
`none` when the fuel (or the inner VND budget) is exhausted. -/
def vnsFuel (p : Prob) (o : Obj) (maxIter maxSem vndBudget : Nat)
    (vndSampler : Nat → Nat → List Nat) (perm : Nat → List Nat)
    (coin : Nat → Nat → Bool) (pick : Nat → Nat → Nat) :
    Nat → VnsSt → Option Sol
  | fuel, st =>
    if maxIter ≤ st.iter then some st.sol
    else if st.k ≤ 3 then
      match fuel with
      | 0 => none
      | fuel' + 1 =>
        match vndFuel p o (vndSampler st.t) vndBudget
          (vndInit p o (shake_adaptativo p st.sol (vnsIntensity st.k) (perm st.t)
            (coin st.t) (pick st.t)) 0) with
        | none => none
        | some (viz, _) =>
          if (tournament_selection p o st.sol viz).2 = true then
            vnsFuel p o maxIter maxSem vndBudget vndSampler perm coin pick fuel'
              ⟨(tournament_selection p o st.sol viz).1, st.iter, 1, 0, st.t + 1⟩
          else
            vnsFuel p o maxIter maxSem vndBudget vndSampler perm coin pick fuel'
              ⟨st.sol, st.iter, st.k + 1, st.semMelhoria, st.t + 1⟩
    else
      if maxSem ≤ st.semMelhoria + 1 then some st.sol
      else
        match fuel with
        | 0 => none
        | fuel' + 1 =>
          vnsFuel p o maxIter maxSem vndBudget vndSampler perm coin pick fuel'
            ⟨st.sol, st.iter + 1, 1, st.semMelhoria + 1, st.t⟩


/-- `FuncoesObjetivo.normalize_objectives` (funcoes_objetivo.py lines
139-163): min-max normalization of both objectives, with a degenerate range
(difference not exceeding 1e-10) normalized to 0.0. -/
def normalize_objectives (f1v f2v f1mn f1mx f2mn f2mx : ℚ) : ℚ × ℚ :=
  ((if 1 / 10 ^ 10 < f1mx - f1mn then (f1v - f1mn) / (f1mx - f1mn) else 0),
   (if 1 / 10 ^ 10 < f2mx - f2mn then (f2v - f2mn) / (f2mx - f2mn) else 0))

/-- `FuncoesObjetivo.calcular_objetivo_pw` (funcoes_objetivo.py lines
165-195): returns `(F_w, f1_raw, f2_raw, is_feasible, violation)`. -/
def calcular_objetivo_pw (p : Prob) (x y h : Mat)
    (w1 w2 f1mn f1mx f2mn f2mx : ℚ) : ℚ × ℚ × ℚ × Bool × ℚ :=
  (w1 * (normalize_objectives (calcular_f1 p x h y) (calcular_f2 p h)
      f1mn f1mx f2mn f2mx).1 +
    w2 * (normalize_objectives (calcular_f1 p x h y) (calcular_f2 p h)
      f1mn f1mx f2mn f2mx).2,
   calcular_f1 p x h y, calcular_f2 p h,
   decide (calcular_violacao p x y h = 0), calcular_violacao p x y h)

/-- Instance refuting claim C8 as stated: one asset, two bases, two teams,
distance 0 to base 0 and 1 to base 1. -/
def probC8 : Prob := ⟨1, 2, 2, 0, fun _ j => if j = 0 then 0 else 1⟩

/-- C8 counterexample, solution A: the asset on team 0 at base 0 (f1 = 0). -/
def solC8a : Sol := ⟨[[true, false]], [[true, false], [false, true]], [[true, false]]⟩

/-- C8 counterexample, solution B: the asset on team 1 at base 1 (f1 = 1). -/
def solC8b : Sol := ⟨[[true, false]], [[true, false], [false, true]], [[false, true]]⟩

/-- `domina` relation of `nondominatedsolutions`: weakly better in every
objective and strictly better in at least one (minimization). -/
def domina (qa pa : List ℚ) : Bool :=
  ((List.zip qa pa).all fun z => decide (z.1 ≤ z.2)) &&
  ((List.zip qa pa).any fun z => decide (z.1 < z.2))

/-- `nondominatedsolutions` (funcoes_objetivo.py lines 226-252): ascending
indices of the rows not dominated by any other row. -/
def nondominatedsolutions (objectives : List (List ℚ)) : List Nat :=
  (List.range objectives.length).filter fun i =>
    ! ((List.range objectives.length).any fun j =>
        decide (j ≠ i) && domina (objectives.getD j []) (objectives.getD i []))


/-- A swap sample that enumerates every asset: the shape of
`np.random.choice(n_ativos, min(20, n_ativos), replace=False)` whenever
`n_ativos <= 20`. -/
def validSample (p : Prob) (sample : List Nat) : Prop :=
  List.Perm sample (List.range p.n)

instance (p : Prob) (sample : List Nat) : Decidable (validSample p sample) := by
  unfold validSample
  infer_instance

/-- Instance refuting claim C4 as stated: 21 assets (so the swap
neighbourhood samples only 20 of them), 2 bases, 2 teams, `eta = 0`;
asset 0 is 10 away from base 1, the other assets are 5 away, and every
asset is at distance 0 from base 0. -/
def probC4 : Prob :=
  ⟨21, 2, 2, 0, fun i j => if j = 0 then 0 else if i = 0 then 10 else 5⟩

/-- C4 start: asset 0 alone at base 1 on team 1, assets 1-20 at base 0 on
team 0 (the same 21 x 2 matrix serves as `x` and as `h`). -/
def xC4 : Mat := [false, true] :: List.replicate 20 [true, false]

/-- Teams 0 and 1 placed at bases 0 and 1 respectively. -/
def yC4 : Mat := [[true, false], [false, true]]

/-- C4 start solution. -/
def solC4 : Sol := ⟨xC4, yC4, xC4⟩

/-- `solC4` after swapping assets 0 and 1 between their bases. -/
def xC4b : Mat := [true, false] :: [false, true] :: List.replicate 19 [true, false]

/-- The strictly better solution reachable from `solC4` only through a swap
whose sample contains asset 0. -/
def solC4b : Sol := ⟨xC4b, yC4, xC4b⟩

/-- A draw of 20 of the 21 assets that misses asset 0. -/
def samplerC4a : Nat → List Nat := fun _ => (List.range 21).drop 1

/-- A draw of 20 of the 21 assets that contains asset 0. -/
def samplerC4b : Nat → List Nat := fun _ => List.range 20

-- THEOREMS BELOW THIS LINE

section SumLemmas

lemma qSum_succ (d : Nat) (f : Nat → ℚ) : qSum (d + 1) f = qSum d f + f d := by
  simp [qSum, List.range_succ]

lemma qSum_nonneg {d : Nat} {f : Nat → ℚ} (hf : ∀ i, i < d → 0 ≤ f i) :
    0 ≤ qSum d f := by
  induction d with
  | zero => simp [qSum]
  | succ d ih =>
    rw [qSum_succ]
    have h1 : 0 ≤ qSum d f := ih fun i hi => hf i (Nat.lt_succ_of_lt hi)
    have h2 : 0 ≤ f d := hf d (Nat.lt_succ_self d)
    linarith

lemma qSum_eq_zero_iff {d : Nat} {f : Nat → ℚ} (hf : ∀ i, i < d → 0 ≤ f i) :
    qSum d f = 0 ↔ ∀ i, i < d → f i = 0 := by
  induction d with
  | zero => simp [qSum]
  | succ d ih =>
    rw [qSum_succ]
    have h1 : 0 ≤ qSum d f := qSum_nonneg fun i hi => hf i (Nat.lt_succ_of_lt hi)
    have h2 : 0 ≤ f d := hf d (Nat.lt_succ_self d)
    constructor
    · intro h0
      have hs : qSum d f = 0 ∧ f d = 0 := by constructor <;> linarith
      intro i hi
      rcases Nat.lt_succ_iff_lt_or_eq.mp hi with hlt | heq
      · exact ((ih fun i hi => hf i (Nat.lt_succ_of_lt hi)).mp hs.1) i hlt
      · simpa [heq] using hs.2
    · intro hall
      have hz : qSum d f = 0 :=
        (ih fun i hi => hf i (Nat.lt_succ_of_lt hi)).mpr
          fun i hi => hall i (Nat.lt_succ_of_lt hi)
      rw [hz, hall d (Nat.lt_succ_self d), add_zero]

end SumLemmas


section CountLemmas

lemma natCount_eq_card (d : Nat) (f : Nat → Bool) :
    natCount d f = ((Finset.range d).filter (fun i => f i = true)).card := by
  induction d with
  | zero => simp [natCount]
  | succ d ih =>
    rw [natCount, List.range_succ, List.countP_append, Finset.range_succ,
      Finset.filter_insert]
    by_cases hd : f d = true
    · rw [if_pos hd, Finset.card_insert_of_not_mem (by simp)]
      have h1 : List.countP f [d] = 1 := by simp [List.countP_cons, hd]
      rw [h1, ← natCount, ih]
    · rw [if_neg hd]
      have h0 : List.countP f [d] = 0 := by simp [List.countP_cons, hd]
      rw [h0, ← natCount, ih, Nat.add_zero]

lemma natCount_unique {d : Nat} {f : Nat → Bool} (h : natCount d f ≤ 1) :
    ∀ a b, a < d → b < d → f a = true → f b = true → a = b := by
  intro a b ha hb hfa hfb
  by_contra hne
  rw [natCount_eq_card] at h
  have hlt : 1 < ((Finset.range d).filter (fun i => f i = true)).card :=
    Finset.one_lt_card.mpr
      ⟨a, by simp [Finset.mem_filter, Finset.mem_range, ha, hfa],
       b, by simp [Finset.mem_filter, Finset.mem_range, hb, hfb], hne⟩
  omega

lemma natCount_pos_iff {d : Nat} {f : Nat → Bool} :
    0 < natCount d f ↔ ∃ i, i < d ∧ f i = true := by
  rw [natCount, List.countP_pos_iff]
  constructor
  · rintro ⟨a, ha, hfa⟩; exact ⟨a, List.mem_range.mp ha, hfa⟩
  · rintro ⟨a, ha, hfa⟩; exact ⟨a, List.mem_range.mpr ha, hfa⟩

end CountLemmas

section ViolationParts

lemma restr1_term_eq_zero (soma ativos : Nat) :
    ((if 1 < soma then ((soma : ℚ) - 1) ^ 2 else 0) +
     (if 0 < ativos ∧ soma ≠ 1 then |(soma : ℚ) - 1| ^ 2 else 0) +
     (if soma = 1 ∧ ativos = 0 then 1 else 0) = 0) ↔
    ((0 < ativos → soma = 1) ∧ (ativos = 0 → soma = 0)) := by
  constructor
  · intro h0
    by_cases hgt : 1 < soma
    · exfalso
      have hc : (1 : ℚ) < (soma : ℚ) := by exact_mod_cast hgt
      have hsq : (0 : ℚ) < ((soma : ℚ) - 1) ^ 2 := pow_pos (by linarith) 2
      rw [if_pos hgt] at h0
      have h2 : (0 : ℚ) ≤ |(soma : ℚ) - 1| ^ 2 := sq_nonneg _
      split_ifs at h0 <;> linarith
    · by_cases hb : 0 < ativos ∧ soma ≠ 1
      · exfalso
        have hne : ((soma : ℚ) - 1) ≠ 0 := sub_ne_zero_of_ne (by exact_mod_cast hb.2)
        have hsq : (0 : ℚ) < |(soma : ℚ) - 1| ^ 2 := pow_pos (abs_pos.mpr hne) 2
        rw [if_neg hgt, if_pos hb] at h0
        split_ifs at h0 <;> linarith
      · by_cases hc : soma = 1 ∧ ativos = 0
        · exfalso
          rw [if_neg hgt, if_neg hb, if_pos hc] at h0
          norm_num at h0
        · push_neg at hb hc
          refine ⟨hb, fun hz => ?_⟩
          have h1 : soma ≠ 1 := fun he => (hc he) hz
          omega
  · intro hk
    have hle : soma ≤ 1 := by
      rcases Nat.eq_zero_or_pos ativos with hz | hp
      · rw [hk.2 hz]; exact Nat.zero_le 1
      · rw [hk.1 hp]
    rw [if_neg (show ¬ 1 < soma by omega),
      if_neg (show ¬ (0 < ativos ∧ soma ≠ 1) from fun hb => hb.2 (hk.1 hb.1)),
      if_neg (show ¬ (soma = 1 ∧ ativos = 0) from fun hc => by
        have h2 := hk.2 hc.2; omega)]
    norm_num

lemma viol1_term_nonneg (p : Prob) (y h : Mat) (k : Nat) :
    0 ≤ (if 1 < somaEquipe p y k then ((somaEquipe p y k : ℚ) - 1) ^ 2 else 0) +
      (if 0 < ativosEquipe p h k ∧ somaEquipe p y k ≠ 1 then
        |(somaEquipe p y k : ℚ) - 1| ^ 2 else 0) +
      (if somaEquipe p y k = 1 ∧ ativosEquipe p h k = 0 then 1 else 0) := by
  have h1 : (0 : ℚ) ≤ ((somaEquipe p y k : ℚ) - 1) ^ 2 := sq_nonneg _
  have h2 : (0 : ℚ) ≤ |(somaEquipe p y k : ℚ) - 1| ^ 2 := sq_nonneg _
  split_ifs <;> linarith

lemma viol1_nonneg (p : Prob) (y h : Mat) : 0 ≤ viol1 p y h :=
  qSum_nonneg fun k _ => viol1_term_nonneg p y h k

lemma viol1_eq_zero_iff (p : Prob) (y h : Mat) :
    viol1 p y h = 0 ↔ ∀ k, k < p.s →
      (0 < ativosEquipe p h k → somaEquipe p y k = 1) ∧
      (ativosEquipe p h k = 0 → somaEquipe p y k = 0) := by
  rw [viol1, qSum_eq_zero_iff fun k _ => viol1_term_nonneg p y h k]
  exact forall_congr' fun k => imp_congr_right fun _ =>
    restr1_term_eq_zero (somaEquipe p y k) (ativosEquipe p h k)

end ViolationParts

section ViolationPartsRest

lemma viol2_term_nonneg (p : Prob) (x : Mat) (i : Nat) :
    0 ≤ if somaBasesAtivo p x i ≠ 1 then ((somaBasesAtivo p x i : ℚ) - 1) ^ 2 else 0 := by
  split_ifs
  · exact sq_nonneg _
  · exact le_refl 0

lemma viol2_nonneg (p : Prob) (x : Mat) : 0 ≤ viol2 p x :=
  qSum_nonneg fun i _ => viol2_term_nonneg p x i

lemma sq_cast_sub_one_ne_zero {a : Nat} (ha : a ≠ 1) : ((a : ℚ) - 1) ^ 2 ≠ 0 :=
  pow_ne_zero 2 (sub_ne_zero_of_ne (by exact_mod_cast ha))

lemma viol2_eq_zero_iff (p : Prob) (x : Mat) :
    viol2 p x = 0 ↔ ∀ i, i < p.n → somaBasesAtivo p x i = 1 := by
  rw [viol2, qSum_eq_zero_iff fun i _ => viol2_term_nonneg p x i]
  refine forall_congr' fun i => imp_congr_right fun _ => ?_
  by_cases hne : somaBasesAtivo p x i ≠ 1
  · rw [if_pos hne]
    exact ⟨fun h0 => absurd h0 (sq_cast_sub_one_ne_zero hne), fun h1 => absurd h1 hne⟩
  · rw [if_neg hne]
    push_neg at hne
    exact ⟨fun _ => hne, fun _ => rfl⟩

lemma viol3_term_nonneg (p : Prob) (x y : Mat) (i j : Nat) :
    0 ≤ if getE x i j ∧ equipesNaBase p y j = 0 then (1 : ℚ) else 0 := by
  split_ifs <;> norm_num

lemma viol3_nonneg (p : Prob) (x y : Mat) : 0 ≤ viol3 p x y :=
  qSum_nonneg fun i _ => qSum_nonneg fun j _ => viol3_term_nonneg p x y i j

lemma viol3_eq_zero_iff (p : Prob) (x y : Mat) :
    viol3 p x y = 0 ↔ ∀ i, i < p.n → ∀ j, j < p.m →
      getE x i j = true → 0 < equipesNaBase p y j := by
  rw [viol3, qSum_eq_zero_iff fun i _ => qSum_nonneg fun j _ => viol3_term_nonneg p x y i j]
  refine forall_congr' fun i => imp_congr_right fun _ => ?_
  rw [qSum_eq_zero_iff fun j _ => viol3_term_nonneg p x y i j]
  refine forall_congr' fun j => imp_congr_right fun _ => ?_
  by_cases hc : getE x i j ∧ equipesNaBase p y j = 0
  · rw [if_pos hc]
    norm_num
    exact hc
  · rw [if_neg hc]
    push_neg at hc
    exact ⟨fun _ hx => Nat.pos_of_ne_zero (hc hx), fun _ => rfl⟩

lemma viol4_term_nonneg (p : Prob) (h : Mat) (i : Nat) :
    0 ≤ if somaEquipesAtivo p h i ≠ 1 then ((somaEquipesAtivo p h i : ℚ) - 1) ^ 2 else 0 := by
  split_ifs
  · exact sq_nonneg _
  · exact le_refl 0

lemma viol4_nonneg (p : Prob) (h : Mat) : 0 ≤ viol4 p h :=
  qSum_nonneg fun i _ => viol4_term_nonneg p h i

lemma viol4_eq_zero_iff (p : Prob) (h : Mat) :
    viol4 p h = 0 ↔ ∀ i, i < p.n → somaEquipesAtivo p h i = 1 := by
  rw [viol4, qSum_eq_zero_iff fun i _ => viol4_term_nonneg p h i]
  refine forall_congr' fun i => imp_congr_right fun _ => ?_
  by_cases hne : somaEquipesAtivo p h i ≠ 1
  · rw [if_pos hne]
    exact ⟨fun h0 => absurd h0 (sq_cast_sub_one_ne_zero hne), fun h1 => absurd h1 hne⟩
  · rw [if_neg hne]
    push_neg at hne
    exact ⟨fun _ => hne, fun _ => rfl⟩

lemma viol5_term_nonneg (p : Prob) (x y h : Mat) (i k : Nat) :
    0 ≤ (if getE h i k then
      match (List.range p.m).find? (fun j => getE x i j) with
      | some j => if getE y j k then (0 : ℚ) else 1
      | none => 0
    else 0) := by
  split_ifs with hh
  · cases hfind : (List.range p.m).find? (fun j => getE x i j) with
    | none => exact le_refl 0
    | some j => dsimp only; split_ifs <;> norm_num
  · exact le_refl 0

lemma viol5_nonneg (p : Prob) (x y h : Mat) : 0 ≤ viol5 p x y h :=
  qSum_nonneg fun i _ => qSum_nonneg fun k _ => viol5_term_nonneg p x y h i k

lemma viol5_eq_zero_iff (p : Prob) (x y h : Mat) :
    viol5 p x y h = 0 ↔ ∀ i, i < p.n → ∀ k, k < p.s → getE h i k = true →
      ∀ j, (List.range p.m).find? (fun j => getE x i j) = some j → getE y j k = true := by
  rw [viol5, qSum_eq_zero_iff fun i _ => qSum_nonneg fun k _ => viol5_term_nonneg p x y h i k]
  refine forall_congr' fun i => imp_congr_right fun _ => ?_
  rw [qSum_eq_zero_iff fun k _ => viol5_term_nonneg p x y h i k]
  refine forall_congr' fun k => imp_congr_right fun _ => ?_
  by_cases hh : getE h i k = true
  · rw [if_pos hh]
    cases hfind : (List.range p.m).find? (fun j => getE x i j) with
    | none =>
      simp only [hfind]
      constructor
      · intro _ _ j hj
        exact absurd hj (by simp)
      · intro _
        trivial
    | some j =>
      simp only [hfind]
      by_cases hy : getE y j k = true
      · simp only [if_pos hy]
        constructor
        · intro _ _ j' hj'
          injection hj' with he
          rw [← he]
          exact hy
        · intro _
          trivial
      · simp only [if_neg hy]
        constructor
        · intro h1
          exact absurd h1 one_ne_zero
        · intro hall
          exact absurd (hall hh j rfl) hy
  · rw [if_neg hh]
    constructor
    · intro _ htrue
      exact absurd htrue hh
    · intro _
      rfl


lemma viol6_term_nonneg (p : Prob) (h : Mat) (k : Nat) :
    0 ≤ if 0 < ativosEquipe p h k ∧ (ativosEquipe p h k : ℚ) < p.eta * p.n / p.s then
      (p.eta * p.n / p.s - ativosEquipe p h k) ^ 2 else 0 := by
  split_ifs
  · exact sq_nonneg _
  · exact le_refl 0

lemma viol6_nonneg (p : Prob) (h : Mat) : 0 ≤ viol6 p h :=
  qSum_nonneg fun k _ => viol6_term_nonneg p h k

lemma viol6_eq_zero_iff (p : Prob) (h : Mat) :
    viol6 p h = 0 ↔ ∀ k, k < p.s → 0 < ativosEquipe p h k →
      p.eta * p.n / p.s ≤ (ativosEquipe p h k : ℚ) := by
  rw [viol6, qSum_eq_zero_iff fun k _ => viol6_term_nonneg p h k]
  refine forall_congr' fun k => imp_congr_right fun _ => ?_
  by_cases hc : 0 < ativosEquipe p h k ∧ (ativosEquipe p h k : ℚ) < p.eta * p.n / p.s
  · rw [if_pos hc]
    have hpos : (0 : ℚ) < (p.eta * p.n / p.s - ativosEquipe p h k) ^ 2 :=
      pow_pos (by linarith [hc.2]) 2
    exact ⟨fun h0 => absurd h0 (ne_of_gt hpos), fun hle => absurd (hle hc.1) (not_le.mpr hc.2)⟩
  · rw [if_neg hc]
    push_neg at hc
    exact ⟨fun _ hp => le_of_not_lt (fun hlt => absurd (hc hp) (not_le.mpr hlt)), fun _ => rfl⟩

lemma calcular_violacao_nonneg (p : Prob) (x y h : Mat) :
    0 ≤ calcular_violacao p x y h := by
  have h1 := viol1_nonneg p y h
  have h2 := viol2_nonneg p x
  have h3 := viol3_nonneg p x y
  have h4 := viol4_nonneg p h
  have h5 := viol5_nonneg p x y h
  have h6 := viol6_nonneg p h
  unfold calcular_violacao
  linarith

lemma calcular_violacao_eq_zero_iff_parts (p : Prob) (x y h : Mat) :
    calcular_violacao p x y h = 0 ↔
      viol1 p y h = 0 ∧ viol2 p x = 0 ∧ viol3 p x y = 0 ∧
      viol4 p h = 0 ∧ viol5 p x y h = 0 ∧ viol6 p h = 0 := by
  have h1 := viol1_nonneg p y h
  have h2 := viol2_nonneg p x
  have h3 := viol3_nonneg p x y
  have h4 := viol4_nonneg p h
  have h5 := viol5_nonneg p x y h
  have h6 := viol6_nonneg p h
  unfold calcular_violacao
  constructor
  · intro h0
    refine ⟨by linarith, by linarith, by linarith, by linarith, by linarith, by linarith⟩
  · rintro ⟨e1, e2, e3, e4, e5, e6⟩
    rw [e1, e2, e3, e4, e5, e6]
    norm_num

end ViolationPartsRest


section ClaimC1

/-- Claim C1, counterexample to the claim as stated: in this instance all six
constraint families listed by the claim hold (team 1 is unused so "each used
team placed at exactly one base" is vacuous for it), yet `calcular_violacao`
is 1, not 0, because restriction 1 also penalises a placed team with no
assets.  So "violation = 0 iff the six families hold" is false. -/
theorem c1_claim_counterexample :
    sixFamilies probC1 xC1 yC1 hC1 ∧ calcular_violacao probC1 xC1 yC1 hC1 ≠ 0 := by
  constructor
  · unfold sixFamilies
    refine ⟨?_, ?_, ?_, ?_, ?_, ?_⟩
    · with_unfolding_all decide
    · with_unfolding_all decide
    · with_unfolding_all decide
    · with_unfolding_all decide
    · with_unfolding_all decide
    · with_unfolding_all decide
  · with_unfolding_all decide

/-- Claim C1 (amended): `calcular_violacao` is nonnegative on every triple of
0/1 matrices, and it is exactly 0 iff the six constraint families hold AND,
in addition, every team placed at a base serves at least one asset (a placed
unused team is also penalised). -/
theorem c1_violacao_nonneg_and_zero_iff (p : Prob) (x y h : Mat) :
    0 ≤ calcular_violacao p x y h ∧
    (calcular_violacao p x y h = 0 ↔ sixFamilies p x y h ∧ placedTeamsUsed p y h) := by
  refine ⟨calcular_violacao_nonneg p x y h, ?_⟩
  rw [calcular_violacao_eq_zero_iff_parts, viol1_eq_zero_iff, viol2_eq_zero_iff,
    viol3_eq_zero_iff, viol4_eq_zero_iff, viol5_eq_zero_iff, viol6_eq_zero_iff]
  constructor
  · rintro ⟨h1, h2, h3, h4, h5, h6⟩
    refine ⟨⟨fun k hk => (h1 k hk).1, h2, h3, h4, ?_, h6⟩, fun k hk => (h1 k hk).2⟩
    intro i hi k hk hik j hj hxij
    have hcount : somaBasesAtivo p x i = 1 := h2 i hi
    have hex : (List.range p.m).find? (fun j => getE x i j) ≠ none := by
      intro hnone
      rw [List.find?_eq_none] at hnone
      exact (hnone j (List.mem_range.mpr hj)) hxij
    cases hfind : (List.range p.m).find? (fun j => getE x i j) with
    | none => exact absurd hfind hex
    | some j0 =>
      have hx0 : getE x i j0 = true := List.find?_some hfind
      have hm0 : j0 < p.m := List.mem_range.mp (List.mem_of_find?_eq_some hfind)
      have huniq := natCount_unique (le_of_eq hcount) j j0 hj hm0 hxij hx0
      rw [huniq]
      exact h5 i hi k hk hik j0 hfind
  · rintro ⟨⟨f1c, f2c, f3c, f4c, f5c, f6c⟩, hext⟩
    refine ⟨fun k hk => ⟨f1c k hk, hext k hk⟩, f2c, f3c, f4c, ?_, f6c⟩
    intro i hi k hk hik j0 hfind
    have hx0 : getE x i j0 = true := List.find?_some hfind
    have hm0 : j0 < p.m := List.mem_range.mp (List.mem_of_find?_eq_some hfind)
    exact f5c i hi k hk hik j0 hm0 hx0

end ClaimC1


section ClaimC2

/-- Violation of a solution triple is nonnegative, packaged for `Sol`. -/
lemma violSol_nonneg (p : Prob) (a : Sol) : 0 ≤ violSol p a :=
  calcular_violacao_nonneg p a.x a.y a.h

/-- Claim C2 (confirmed): `tournament_selection` accepts the candidate exactly
under the claimed deterministic rule (both feasible and strictly better
objective; or candidate feasible and current infeasible; or both infeasible
and candidate of strictly smaller violation, ties rejecting), it returns the
candidate iff it accepts, and in particular a feasible current solution is
never replaced by an infeasible candidate. -/
theorem c2_tournament_selection_rule (p : Prob) (o : Obj) (a b : Sol) :
    ((tournament_selection p o a b).2 = true ↔
      (violSol p a = 0 ∧ violSol p b = 0 ∧ objVal p o b < objVal p o a) ∨
      (violSol p b = 0 ∧ 0 < violSol p a) ∨
      (0 < violSol p a ∧ 0 < violSol p b ∧ violSol p b < violSol p a)) ∧
    (tournament_selection p o a b).1 =
      (if (tournament_selection p o a b).2 = true then b else a) ∧
    (violSol p a = 0 → 0 < violSol p b → (tournament_selection p o a b).2 = false) := by
  have hva : 0 ≤ violSol p a := violSol_nonneg p a
  have hvb : 0 ≤ violSol p b := violSol_nonneg p b
  unfold tournament_selection
  by_cases h1 : violSol p a = 0 ∧ violSol p b = 0
  · rw [if_pos h1]
    by_cases h2 : objVal p o b < objVal p o a
    · rw [if_pos h2]
      exact ⟨⟨fun _ => Or.inl ⟨h1.1, h1.2, h2⟩, fun _ => rfl⟩, rfl,
        fun _ hy0 => absurd (h1.2 ▸ hy0) (lt_irrefl 0)⟩
    · rw [if_neg h2]
      refine ⟨⟨fun hft => absurd hft Bool.false_ne_true, ?_⟩, rfl, fun _ _ => rfl⟩
      rintro (⟨_, _, hlt⟩ | ⟨_, hpos⟩ | ⟨hpa, _, _⟩)
      · exact absurd hlt h2
      · exact absurd (h1.1 ▸ hpos) (lt_irrefl 0)
      · exact absurd (h1.1 ▸ hpa) (lt_irrefl 0)
  · rw [if_neg h1]
    by_cases h3 : violSol p b = 0 ∧ 0 < violSol p a
    · rw [if_pos h3]
      exact ⟨⟨fun _ => Or.inr (Or.inl h3), fun _ => rfl⟩, rfl,
        fun hx0 _ => absurd (hx0 ▸ h3.2) (lt_irrefl 0)⟩
    · rw [if_neg h3]
      by_cases h4 : violSol p a = 0 ∧ 0 < violSol p b
      · rw [if_pos h4]
        refine ⟨⟨fun hft => absurd hft Bool.false_ne_true, ?_⟩, rfl, fun _ _ => rfl⟩
        rintro (⟨_, hyb0, _⟩ | ⟨hyb0, _⟩ | ⟨hpa, _, _⟩)
        · exact absurd (hyb0 ▸ h4.2) (lt_irrefl 0)
        · exact absurd (hyb0 ▸ h4.2) (lt_irrefl 0)
        · exact absurd (h4.1 ▸ hpa) (lt_irrefl 0)
      · by_cases h5 : violSol p b < violSol p a
        · rw [if_neg h4, if_pos h5]
          have hxpos : 0 < violSol p a := lt_of_le_of_lt hvb h5
          have hypos : 0 < violSol p b := by
            rcases lt_or_eq_of_le hvb with hp | he
            · exact hp
            · exact absurd ⟨he.symm, hxpos⟩ h3
          exact ⟨⟨fun _ => Or.inr (Or.inr ⟨hxpos, hypos, h5⟩), fun _ => rfl⟩, rfl,
            fun hx0 _ => absurd (hx0 ▸ h5) (not_lt.mpr hvb)⟩
        · rw [if_neg h4, if_neg h5]
          refine ⟨⟨fun hft => absurd hft Bool.false_ne_true, ?_⟩, rfl, fun _ _ => rfl⟩
          rintro (⟨e1, e2, _⟩ | he | ⟨_, _, e3⟩)
          · exact absurd ⟨e1, e2⟩ h1
          · exact absurd he h3
          · exact absurd e3 h5

end ClaimC2


section BestFoldLemmas

lemma verificar_restricoes_iff (p : Prob) (x y h : Mat) :
    verificar_restricoes p x y h = true ↔ calcular_violacao p x y h = 0 := by
  simp [verificar_restricoes]

lemma bestStep_imp_mono (p : Prob) (o : Obj) (acc : BestAcc) (c : Sol)
    (hacc : acc.imp = true) : (bestStep p o acc c).imp = true := by
  unfold bestStep
  split_ifs <;> simp [hacc]

lemma foldl_bestStep_imp_mono (p : Prob) (o : Obj) :
    ∀ (l : List Sol) (acc : BestAcc), acc.imp = true →
      (l.foldl (bestStep p o) acc).imp = true := by
  intro l
  induction l with
  | nil => intro acc hacc; exact hacc
  | cons c t ih =>
    intro acc hacc
    exact ih (bestStep p o acc c) (bestStep_imp_mono p o acc c hacc)

lemma foldl_bestStep_inv (p : Prob) (o : Obj) (init : Sol) :
    ∀ (l : List Sol) (acc : BestAcc),
      acc.val = objVal p o acc.sol →
      acc.val ≤ objVal p o init →
      (acc.imp = false → acc.sol = init ∧ acc.val = objVal p o init) →
      (acc.imp = true → violSol p acc.sol = 0 ∧ acc.val < objVal p o init) →
      (l.foldl (bestStep p o) acc).val = objVal p o (l.foldl (bestStep p o) acc).sol ∧
      (l.foldl (bestStep p o) acc).val ≤ objVal p o init ∧
      ((l.foldl (bestStep p o) acc).imp = false →
        (l.foldl (bestStep p o) acc).sol = init ∧
        (l.foldl (bestStep p o) acc).val = objVal p o init) ∧
      ((l.foldl (bestStep p o) acc).imp = true →
        violSol p (l.foldl (bestStep p o) acc).sol = 0 ∧
        (l.foldl (bestStep p o) acc).val < objVal p o init) := by
  intro l
  induction l with
  | nil => intro acc h1 h2 h3 h4; exact ⟨h1, h2, h3, h4⟩
  | cons c t ih =>
    intro acc h1 h2 h3 h4
    rw [List.foldl_cons]
    by_cases hc : verificar_restricoes p c.x c.y c.h = true ∧ objVal p o c < acc.val
    · rw [show bestStep p o acc c = ⟨c, objVal p o c, true⟩ from by
        unfold bestStep; rw [if_pos hc]]
      refine ih ⟨c, objVal p o c, true⟩ rfl (le_of_lt (lt_of_lt_of_le hc.2 h2))
        (fun hfalse => Bool.noConfusion hfalse) (fun _ => ?_)
      exact ⟨(verificar_restricoes_iff p c.x c.y c.h).mp hc.1,
        lt_of_lt_of_le hc.2 h2⟩
    · rw [show bestStep p o acc c = acc from by unfold bestStep; rw [if_neg hc]]
      exact ih acc h1 h2 h3 h4

lemma bestFold_spec (p : Prob) (o : Obj) (init : Sol) (cands : List Sol) :
    (bestFold p o init cands).val = objVal p o (bestFold p o init cands).sol ∧
    (bestFold p o init cands).val ≤ objVal p o init ∧
    ((bestFold p o init cands).imp = false →
      (bestFold p o init cands).sol = init ∧
      (bestFold p o init cands).val = objVal p o init) ∧
    ((bestFold p o init cands).imp = true →
      violSol p (bestFold p o init cands).sol = 0 ∧
      (bestFold p o init cands).val < objVal p o init) :=
  foldl_bestStep_inv p o init cands ⟨init, objVal p o init, false⟩ rfl (le_refl _)
    (fun _ => ⟨rfl, rfl⟩) (fun htrue => Bool.noConfusion htrue)

lemma foldl_bestStep_imp_iff (p : Prob) (o : Obj) (init : Sol) :
    ∀ (l : List Sol) (acc : BestAcc),
      acc.val = objVal p o acc.sol →
      acc.val ≤ objVal p o init →
      (acc.imp = false → acc.val = objVal p o init) →
      ((l.foldl (bestStep p o) acc).imp = true ↔
        acc.imp = true ∨ ∃ c ∈ l, violSol p c = 0 ∧ objVal p o c < objVal p o init) := by
  intro l
  induction l with
  | nil =>
    intro acc _ _ _
    simp
  | cons c t ih =>
    intro acc h1 h2 h3
    rw [List.foldl_cons]
    by_cases hacc : acc.imp = true
    · have hres : (t.foldl (bestStep p o) (bestStep p o acc c)).imp = true :=
        foldl_bestStep_imp_mono p o t _ (bestStep_imp_mono p o acc c hacc)
      simp [hres, hacc]
    · rw [Bool.not_eq_true] at hacc
      have hval : acc.val = objVal p o init := h3 hacc
      by_cases hc : verificar_restricoes p c.x c.y c.h = true ∧ objVal p o c < acc.val
      · have hstep : bestStep p o acc c = ⟨c, objVal p o c, true⟩ := by
          unfold bestStep; rw [if_pos hc]
        rw [hstep]
        have hres : (t.foldl (bestStep p o) ⟨c, objVal p o c, true⟩).imp = true :=
          foldl_bestStep_imp_mono p o t _ rfl
        have hcand : violSol p c = 0 ∧ objVal p o c < objVal p o init :=
          ⟨(verificar_restricoes_iff p c.x c.y c.h).mp hc.1, hval ▸ hc.2⟩
        simp only [hres, true_iff]
        exact Or.inr ⟨c, List.mem_cons_self c t, hcand⟩
      · have hstep : bestStep p o acc c = acc := by
          unfold bestStep; rw [if_neg hc]
        rw [hstep, ih acc h1 h2 h3]
        simp only [hacc, Bool.false_eq_true, false_or, List.mem_cons]
        constructor
        · rintro ⟨d, hd, hdp⟩
          exact ⟨d, Or.inr hd, hdp⟩
        · rintro ⟨d, hd | hd, hdp⟩
          · exfalso
            apply hc
            rw [hd] at hdp
            exact ⟨(verificar_restricoes_iff p c.x c.y c.h).mpr hdp.1, hval ▸ hdp.2⟩
          · exact ⟨d, hd, hdp⟩

lemma bestFold_imp_iff (p : Prob) (o : Obj) (init : Sol) (cands : List Sol) :
    (bestFold p o init cands).imp = true ↔
      ∃ c ∈ cands, violSol p c = 0 ∧ objVal p o c < objVal p o init := by
  rw [bestFold, foldl_bestStep_imp_iff p o init cands ⟨init, objVal p o init, false⟩ rfl
    (le_refl _) (fun _ => rfl)]
  simp

end BestFoldLemmas


section ClaimC3

lemma bestFold_operator_spec (p : Prob) (o : Obj) (inp : Sol) (cands : List Sol) :
    returnsImprovedFeasible p o inp
      ((bestFold p o inp cands).sol, (bestFold p o inp cands).val,
        (bestFold p o inp cands).imp) := by
  obtain ⟨hval, hle, hfalse, htrue⟩ := bestFold_spec p o inp cands
  constructor
  · intro himp
    obtain ⟨hviol, hlt⟩ := htrue himp
    exact ⟨hviol, hval ▸ hlt⟩
  · intro himp
    exact (hfalse himp).1

lemma consolidate_spec (p : Prob) (o : Obj) (x y h : Mat) :
    returnsImprovedFeasible p o ⟨x, y, h⟩ (consolidate_equipes p o x y h) := by
  unfold consolidate_equipes
  by_cases ho : o = Obj.f2
  · subst ho
    rw [if_pos rfl]
    have hobj : objVal p Obj.f2 ⟨x, y, h⟩ = calcular_f2 p h := rfl
    by_cases hact : 1 < (equipesAtivas p h).length
    · rw [if_pos hact]
      cases hfind : (consolidateOutras p y h).find? (consolidatePred p x y h) with
      | some dest =>
        simp only [hfind]
        have hpred := List.find?_some hfind
        rw [consolidatePred, Bool.and_eq_true] at hpred
        constructor
        · intro _
          exact ⟨(verificar_restricoes_iff p _ _ _).mp hpred.1,
            hobj ▸ of_decide_eq_true hpred.2⟩
        · intro hfalse
          exact absurd hfalse (by simp)
      | none =>
        simp only [hfind]
        by_cases hmm : consolidateMaior p h ≠ consolidateMenor p h
        · rw [if_pos hmm]
          by_cases hc : verificar_restricoes p (consolidateCand2 p x y h).x
              (consolidateCand2 p x y h).y (consolidateCand2 p x y h).h = true ∧
              objVal p Obj.f2 (consolidateCand2 p x y h) < calcular_f2 p h
          · rw [if_pos hc]
            exact ⟨fun _ => ⟨(verificar_restricoes_iff p _ _ _).mp hc.1, hobj ▸ hc.2⟩,
              fun hfalse => absurd hfalse (by simp)⟩
          · rw [if_neg hc]
            exact ⟨fun htrue => absurd htrue (by simp), fun _ => rfl⟩
        · rw [if_neg hmm]
          exact ⟨fun htrue => absurd htrue (by simp), fun _ => rfl⟩
    · rw [if_neg hact]
      exact ⟨fun htrue => absurd htrue (by simp), fun _ => rfl⟩
  · rw [if_neg ho]
    exact ⟨fun htrue => absurd htrue (by simp), fun _ => rfl⟩

/-- Claim C3 (confirmed): each of the five neighbourhood operators, when it
reports `improved = true`, returns a solution with violation exactly 0 and a
strictly smaller value of the active objective than the input solution, and
when it reports `improved = false` it returns the input solution unchanged. -/
theorem c3_neighbourhood_operators (p : Prob) (o : Obj) (x y h : Mat)
    (sample : List Nat)
    (hx : ∀ i, i < p.n → somaBasesAtivo p x i = 1)
    (hh : ∀ i, i < p.n → somaEquipesAtivo p h i = 1) :
    returnsImprovedFeasible p o ⟨x, y, h⟩ (shift_ativo_equipe p o x y h) ∧
    returnsImprovedFeasible p o ⟨x, y, h⟩ (task_move p o x y h) ∧
    returnsImprovedFeasible p o ⟨x, y, h⟩ (swap_ativos_bases p o x y h sample) ∧
    returnsImprovedFeasible p o ⟨x, y, h⟩ (two_opt_equipes p o x y h) ∧
    returnsImprovedFeasible p o ⟨x, y, h⟩ (consolidate_equipes p o x y h) :=
  ⟨bestFold_operator_spec p o ⟨x, y, h⟩ (shiftCands p x y h),
   bestFold_operator_spec p o ⟨x, y, h⟩ (taskMoveCands p x y h),
   bestFold_operator_spec p o ⟨x, y, h⟩ (swapCands p x y h sample),
   bestFold_operator_spec p o ⟨x, y, h⟩ (twoOptCands p x y h),
   consolidate_spec p o x y h⟩

/-- Witness for C3 at the concrete 2-asset, 1-base, 1-team instance. -/
theorem c3_neighbourhood_operators_witness :
    (∀ i, i < probW.n → somaBasesAtivo probW xW i = 1) ∧
    (∀ i, i < probW.n → somaEquipesAtivo probW hW i = 1) ∧
    (returnsImprovedFeasible probW Obj.f1 ⟨xW, yW, hW⟩
        (shift_ativo_equipe probW Obj.f1 xW yW hW) ∧
      returnsImprovedFeasible probW Obj.f1 ⟨xW, yW, hW⟩
        (task_move probW Obj.f1 xW yW hW) ∧
      returnsImprovedFeasible probW Obj.f1 ⟨xW, yW, hW⟩
        (swap_ativos_bases probW Obj.f1 xW yW hW [0, 1]) ∧
      returnsImprovedFeasible probW Obj.f1 ⟨xW, yW, hW⟩
        (two_opt_equipes probW Obj.f1 xW yW hW) ∧
      returnsImprovedFeasible probW Obj.f1 ⟨xW, yW, hW⟩
        (consolidate_equipes probW Obj.f1 xW yW hW)) :=
  ⟨by with_unfolding_all decide, by with_unfolding_all decide,
    c3_neighbourhood_operators probW Obj.f1 xW yW hW [0, 1]
      (by with_unfolding_all decide) (by with_unfolding_all decide)⟩

end ClaimC3


section MatrixLemmas

lemma list_set_self {α : Type} (l : List α) (i : Nat) (h : i < l.length) :
    l.set i l[i] = l := by
  apply List.ext_getElem?
  intro n
  rw [List.getElem?_set]
  by_cases hin : i = n
  · subst hin
    rw [if_pos rfl, if_pos h, List.getElem?_eq_getElem h]
  · rw [if_neg hin]

lemma getE_setE_ne (A : Mat) (i j i' j' : Nat) (b : Bool) (hne : i ≠ i' ∨ j ≠ j') :
    getE (setE A i j b) i' j' = getE A i' j' := by
  unfold getE setE
  rcases eq_or_ne i i' with hii | hii
  · subst hii
    have hj : j ≠ j' := by
      rcases hne with hni | hnj
      · exact absurd rfl hni
      · exact hnj
    by_cases hlt : i < A.length
    · rw [List.getD_eq_getElem?_getD (A.set i _) i, List.getElem?_set_self hlt,
        Option.getD_some, List.getD_eq_getElem?_getD ((A.getD i []).set j b) j',
        List.getElem?_set_ne hj, ← List.getD_eq_getElem?_getD]
    · rw [List.set_eq_of_length_le (Nat.le_of_not_lt hlt)]
  · rw [List.getD_eq_getElem?_getD (A.set i _) i', List.getElem?_set_ne hii,
      ← List.getD_eq_getElem?_getD]

lemma getE_setE_eq (A : Mat) (i j : Nat) (b : Bool) (hi : i < A.length)
    (hj : j < (A.getD i []).length) : getE (setE A i j b) i j = b := by
  unfold getE setE
  rw [List.getD_eq_getElem?_getD (A.set i _) i, List.getElem?_set_self hi,
    Option.getD_some, List.getD_eq_getElem?_getD ((A.getD i []).set j b) j,
    List.getElem?_set_self hj, Option.getD_some]

lemma matShape_setE (A : Mat) (i j : Nat) (b : Bool) :
    matShape (setE A i j b) = matShape A := by
  unfold matShape setE
  rw [List.map_set, List.length_set]
  by_cases hlt : i < A.length
  · have hrow : (A.getD i []).length = (A.map List.length).getD i 0 := by
      rw [List.getD_eq_getElem?_getD A i, List.getElem?_eq_getElem hlt, Option.getD_some,
        List.getD_eq_getElem?_getD (A.map List.length) i,
        List.getElem?_eq_getElem (by rw [List.length_map]; exact hlt)]
      simp
    rw [hrow, List.getD_eq_getElem?_getD (A.map List.length) i,
      List.getElem?_eq_getElem (by rw [List.length_map]; exact hlt), Option.getD_some,
      list_set_self (A.map List.length) i (by rw [List.length_map]; exact hlt)]
  · rw [List.set_eq_of_length_le (by rw [List.length_map]; exact Nat.le_of_not_lt hlt)]

lemma matShape_length {A B : Mat} (hsh : matShape A = matShape B) :
    A.length = B.length := by
  have := congrArg List.length hsh
  simpa [matShape] using this

lemma matShape_row_len {A B : Mat} (hsh : matShape A = matShape B) (i : Nat) :
    (A.getD i []).length = (B.getD i []).length := by
  have hlen : A.length = B.length := matShape_length hsh
  have h1 : (matShape A)[i]? = (matShape B)[i]? := by rw [hsh]
  simp only [matShape, List.getElem?_map] at h1
  rw [List.getD_eq_getElem?_getD A i, List.getD_eq_getElem?_getD B i]
  by_cases hlt : i < A.length
  · rw [List.getElem?_eq_getElem hlt, List.getElem?_eq_getElem (hlen ▸ hlt)] at h1
    simp only [Option.map_some] at h1
    rw [List.getElem?_eq_getElem hlt, List.getElem?_eq_getElem (hlen ▸ hlt)]
    simp only [Option.getD_some]
    exact Option.some.inj h1
  · simp [List.getElem?_eq_none (Nat.le_of_not_lt hlt),
      List.getElem?_eq_none (hlen ▸ Nat.le_of_not_lt hlt)]

lemma natCount_congr {d : Nat} {f g : Nat → Bool} (hfg : ∀ i, i < d → f i = g i) :
    natCount d f = natCount d g :=
  List.countP_congr fun i hi => by rw [hfg i (List.mem_range.mp hi)]

lemma natCount_eq_zero {d : Nat} {f : Nat → Bool} :
    natCount d f = 0 ↔ ∀ i, i < d → f i = false := by
  rw [natCount, List.countP_eq_zero]
  constructor
  · intro hall i hi
    have := hall i (List.mem_range.mpr hi)
    simpa using this
  · intro hall i hi
    simp [hall i (List.mem_range.mp hi)]

end MatrixLemmas

section MoveFoldLemmas

lemma moveFold_matShape (menor dest : Nat) (L : List Nat) (H : Mat) :
    matShape (L.foldl (fun H a => setE (setE H a menor false) a dest true) H) =
      matShape H := by
  induction L generalizing H with
  | nil => rfl
  | cons a t ih =>
    rw [List.foldl_cons, ih, matShape_setE, matShape_setE]

lemma moveFold_col_other (menor dest : Nat) (L : List Nat) (H : Mat) (i k : Nat)
    (hk1 : k ≠ menor) (hk2 : k ≠ dest) :
    getE (L.foldl (fun H a => setE (setE H a menor false) a dest true) H) i k =
      getE H i k := by
  induction L generalizing H with
  | nil => rfl
  | cons a t ih =>
    rw [List.foldl_cons, ih,
      getE_setE_ne _ _ _ _ _ _ (Or.inr (Ne.symm hk2)),
      getE_setE_ne _ _ _ _ _ _ (Or.inr (Ne.symm hk1))]

lemma moveFold_row_other (menor dest : Nat) (L : List Nat) (H : Mat) (i k : Nat)
    (hiL : i ∉ L) :
    getE (L.foldl (fun H a => setE (setE H a menor false) a dest true) H) i k =
      getE H i k := by
  induction L generalizing H with
  | nil => rfl
  | cons a t ih =>
    have hia : a ≠ i := fun he => hiL (he ▸ List.mem_cons_self a t)
    rw [List.foldl_cons, ih _ (fun hmem => hiL (List.mem_cons_of_mem a hmem)),
      getE_setE_ne _ _ _ _ _ _ (Or.inl hia), getE_setE_ne _ _ _ _ _ _ (Or.inl hia)]

lemma moveFold_dest_true (menor dest : Nat) (L : List Nat) (H : Mat) (i : Nat)
    (hiL : i ∈ L) (hnd : L.Nodup) (hlen : i < H.length)
    (hrow : dest < (H.getD i []).length) :
    getE (L.foldl (fun H a => setE (setE H a menor false) a dest true) H) i dest =
      true := by
  induction L generalizing H with
  | nil => cases hiL
  | cons a t ih =>
    rw [List.foldl_cons]
    rcases List.mem_cons.mp hiL with heq | hmem
    · subst heq
      have hnotin : i ∉ t := (List.nodup_cons.mp hnd).1
      rw [moveFold_row_other menor dest t _ i dest hnotin]
      have hlen' : i < (setE H i menor false).length := by
        unfold setE; rw [List.length_set]; exact hlen
      have hrow' : dest < ((setE H i menor false).getD i []).length := by
        rw [matShape_row_len (matShape_setE H i menor false) i]; exact hrow
      exact getE_setE_eq _ i dest true hlen' hrow'
    · have hsh1 : matShape (setE (setE H a menor false) a dest true) = matShape H := by
        rw [matShape_setE, matShape_setE]
      refine ih _ hmem (List.nodup_cons.mp hnd).2 ?_ ?_
      · rw [matShape_length hsh1]; exact hlen
      · rw [matShape_row_len hsh1 i]; exact hrow

end MoveFoldLemmas

section ArgminLemmas

lemma foldl_argmin_mem (f : Nat → Nat) :
    ∀ (t : List Nat) (b : Nat),
      t.foldl (fun b c => if f c < f b then c else b) b ∈ b :: t := by
  intro t
  induction t with
  | nil => intro b; exact List.mem_cons_self b []
  | cons c t' ih =>
    intro b
    rw [List.foldl_cons]
    rcases List.mem_cons.mp (ih (if f c < f b then c else b)) with heq | hmem
    · rw [heq]
      split_ifs
      · exact List.mem_cons_of_mem b (List.mem_cons_self c t')
      · exact List.mem_cons_self b _
    · exact List.mem_cons_of_mem b (List.mem_cons_of_mem c hmem)

lemma argminList_mem (f : Nat → Nat) (l : List Nat) (hne : l ≠ []) :
    argminList f l ∈ l := by
  cases l with
  | nil => exact absurd rfl hne
  | cons a t => exact foldl_argmin_mem f t a

lemma foldl_argmax_mem (f : Nat → Nat) :
    ∀ (t : List Nat) (b : Nat),
      t.foldl (fun b c => if f b < f c then c else b) b ∈ b :: t := by
  intro t
  induction t with
  | nil => intro b; exact List.mem_cons_self b []
  | cons c t' ih =>
    intro b
    rw [List.foldl_cons]
    rcases List.mem_cons.mp (ih (if f b < f c then c else b)) with heq | hmem
    · rw [heq]
      split_ifs
      · exact List.mem_cons_of_mem b (List.mem_cons_self c t')
      · exact List.mem_cons_self b _
    · exact List.mem_cons_of_mem b (List.mem_cons_of_mem c hmem)

lemma argmaxList_mem (f : Nat → Nat) (l : List Nat) (hne : l ≠ []) :
    argmaxList f l ∈ l := by
  cases l with
  | nil => exact absurd rfl hne
  | cons a t => exact foldl_argmax_mem f t a

lemma foldl_argmin_le (f : Nat → Nat) :
    ∀ (t : List Nat) (b : Nat),
      f (t.foldl (fun b c => if f c < f b then c else b) b) ≤ f b ∧
      ∀ c ∈ t, f (t.foldl (fun b c => if f c < f b then c else b) b) ≤ f c := by
  intro t
  induction t with
  | nil => intro b; exact ⟨le_refl _, fun c hc => absurd hc (List.not_mem_nil c)⟩
  | cons c t' ih =>
    intro b
    rw [List.foldl_cons]
    obtain ⟨hb', hall⟩ := ih (if f c < f b then c else b)
    constructor
    · refine le_trans hb' ?_
      split_ifs with hlt
      · exact Nat.le_of_lt hlt
      · exact le_refl _
    · intro d hd
      rcases List.mem_cons.mp hd with heq | hmem
      · subst heq
        refine le_trans hb' ?_
        split_ifs with hlt
        · exact le_refl _
        · exact Nat.le_of_not_lt hlt
      · exact hall d hmem

lemma argminList_le (f : Nat → Nat) (l : List Nat) :
    ∀ c ∈ l, f (argminList f l) ≤ f c := by
  cases l with
  | nil => intro c hc; exact absurd hc (List.not_mem_nil c)
  | cons a t =>
    intro c hc
    rcases List.mem_cons.mp hc with heq | hmem
    · subst heq; exact (foldl_argmin_le f t c).1
    · exact (foldl_argmin_le f t a).2 c hmem

end ArgminLemmas

section ClaimC6

lemma shapeOk_h_row {p : Prob} {x y h : Mat} (hsh : shapeOk p x y h) (i : Nat)
    (hi : i < p.n) : (h.getD i []).length = p.s := by
  obtain ⟨-, -, -, -, hlen, hrows⟩ := hsh
  have hlt : i < h.length := by omega
  rw [List.getD_eq_getElem?_getD, List.getElem?_eq_getElem hlt, Option.getD_some]
  exact hrows _ (List.getElem_mem hlt)

lemma equipesUtilizadas_ge (p : Prob) (hOld hNew : Mat) (menor dest : Nat)
    (hds : dest < p.s)
    (hactive : 0 < ativosEquipe p hNew dest)
    (hother : ∀ k, k < p.s → k ≠ menor → k ≠ dest →
      ativosEquipe p hNew k = ativosEquipe p hOld k) :
    equipesUtilizadas p hOld ≤ equipesUtilizadas p hNew + 1 := by
  rw [equipesUtilizadas, natCount_eq_card, equipesUtilizadas, natCount_eq_card]
  have hsub : ((Finset.range p.s).filter
      (fun k => decide (0 < ativosEquipe p hOld k) = true)).erase menor ⊆
      (Finset.range p.s).filter (fun k => decide (0 < ativosEquipe p hNew k) = true) := by
    intro k hk
    rw [Finset.mem_erase] at hk
    obtain ⟨hkm, hkf⟩ := hk
    rw [Finset.mem_filter] at hkf ⊢
    refine ⟨hkf.1, ?_⟩
    by_cases hkd : k = dest
    · subst hkd
      simpa using hactive
    · have heq := hother k (Finset.mem_range.mp hkf.1) hkm hkd
      rw [heq]
      exact hkf.2
  have hcard := Finset.card_le_card hsub
  by_cases hm : menor ∈ (Finset.range p.s).filter
      (fun k => decide (0 < ativosEquipe p hOld k) = true)
  · rw [Finset.card_erase_of_mem hm] at hcard
    omega
  · rw [Finset.erase_eq_of_not_mem hm] at hcard
    omega

lemma consolidate_move_facts (p : Prob) (x y h : Mat) (hsh : shapeOk p x y h)
    (dest : Nat) (hds : dest < p.s)
    (hact : 0 < ativosEquipe p h (consolidateMenor p h)) :
    0 < ativosEquipe p ((ativosDaEquipe p h (consolidateMenor p h)).foldl
        (fun H a => setE (setE H a (consolidateMenor p h) false) a dest true) h) dest ∧
    (∀ k, k < p.s → k ≠ consolidateMenor p h → k ≠ dest →
      ativosEquipe p ((ativosDaEquipe p h (consolidateMenor p h)).foldl
        (fun H a => setE (setE H a (consolidateMenor p h) false) a dest true) h) k =
        ativosEquipe p h k) := by
  obtain ⟨i0, hi0n, hi0mem⟩ := natCount_pos_iff.mp hact
  have hi0L : i0 ∈ ativosDaEquipe p h (consolidateMenor p h) := by
    rw [ativosDaEquipe, List.mem_filter]
    exact ⟨List.mem_range.mpr hi0n, hi0mem⟩
  constructor
  · rw [ativosEquipe]
    rw [natCount_pos_iff]
    refine ⟨i0, hi0n, ?_⟩
    apply moveFold_dest_true
    · exact hi0L
    · exact List.Nodup.filter _ (List.nodup_range p.n)
    · rw [hsh.2.2.2.2.1]
      exact hi0n
    · rw [shapeOk_h_row hsh i0 hi0n]
      exact hds
  · intro k hk hkm hkd
    apply natCount_congr
    intro i _
    exact moveFold_col_other (consolidateMenor p h) dest _ h i k hkm hkd

/-- Claim C6 (confirmed): under the `'f1'` objective `consolidate_equipes`
returns the input unchanged with `improved = false`; under `'f2'`, whenever
it reports `improved = true` the returned solution has exactly one less
active team than the input, and it never returns a solution with more
active teams than its input. -/
theorem c6_consolidate_active_teams (p : Prob) (x y h : Mat)
    (hsh : shapeOk p x y h)
    (hx : ∀ i, i < p.n → somaBasesAtivo p x i = 1)
    (hhone : ∀ i, i < p.n → somaEquipesAtivo p h i = 1) :
    consolidate_equipes p Obj.f1 x y h = (⟨x, y, h⟩, objVal p Obj.f1 ⟨x, y, h⟩, false) ∧
    ((consolidate_equipes p Obj.f2 x y h).2.2 = true →
      equipesUtilizadas p (consolidate_equipes p Obj.f2 x y h).1.h + 1 =
        equipesUtilizadas p h) ∧
    equipesUtilizadas p (consolidate_equipes p Obj.f2 x y h).1.h ≤ equipesUtilizadas p h := by
  have hf1 : consolidate_equipes p Obj.f1 x y h =
      (⟨x, y, h⟩, objVal p Obj.f1 ⟨x, y, h⟩, false) := by
    unfold consolidate_equipes
    rw [if_neg (fun hcon => Obj.noConfusion hcon)]
  have hkey : ((consolidate_equipes p Obj.f2 x y h).2.2 = false ∧
      (consolidate_equipes p Obj.f2 x y h).1 = ⟨x, y, h⟩) ∨
      ((consolidate_equipes p Obj.f2 x y h).2.2 = true ∧
        equipesUtilizadas p h ≤
          equipesUtilizadas p (consolidate_equipes p Obj.f2 x y h).1.h + 1 ∧
        equipesUtilizadas p (consolidate_equipes p Obj.f2 x y h).1.h <
          equipesUtilizadas p h) := by
    unfold consolidate_equipes
    rw [if_pos rfl]
    by_cases hact1 : 1 < (equipesAtivas p h).length
    · rw [if_pos hact1]
      have hativasne : equipesAtivas p h ≠ [] := by
        intro hnil
        rw [hnil] at hact1
        exact absurd hact1 (by simp)
      have hmenmem : consolidateMenor p h ∈ equipesAtivas p h :=
        argminList_mem _ _ hativasne
      have hmenact : 0 < ativosEquipe p h (consolidateMenor p h) := by
        rw [equipesAtivas, List.mem_filter] at hmenmem
        exact of_decide_eq_true hmenmem.2
      cases hfind : (consolidateOutras p y h).find? (consolidatePred p x y h) with
      | some dest =>
        simp only [hfind]
        right
        have hdestmem := List.mem_of_find?_eq_some hfind
        rw [consolidateOutras, List.mem_filter] at hdestmem
        have hdests : dest < p.s := by
          have := hdestmem.1
          rw [equipesDaBase, List.mem_filter] at this
          exact List.mem_range.mp this.1
        have hpred := List.find?_some hfind
        rw [consolidatePred, Bool.and_eq_true] at hpred
        have hlt : objVal p Obj.f2 (consolidateCand1 p x y h dest) < calcular_f2 p h :=
          of_decide_eq_true hpred.2
        have hltn : equipesUtilizadas p (consolidateCand1 p x y h dest).h <
            equipesUtilizadas p h := by
          have : ((equipesUtilizadas p (consolidateCand1 p x y h dest).h : ℚ)) <
              ((equipesUtilizadas p h : ℚ)) := hlt
          exact_mod_cast this
        obtain ⟨hdact, hdother⟩ := consolidate_move_facts p x y h hsh dest hdests hmenact
        refine ⟨by simp, ?_, hltn⟩
        exact equipesUtilizadas_ge p h _ (consolidateMenor p h) dest hdests hdact hdother
      | none =>
        simp only [hfind]
        by_cases hmm : consolidateMaior p h ≠ consolidateMenor p h
        · rw [if_pos hmm]
          by_cases hc : verificar_restricoes p (consolidateCand2 p x y h).x
              (consolidateCand2 p x y h).y (consolidateCand2 p x y h).h = true ∧
              objVal p Obj.f2 (consolidateCand2 p x y h) < calcular_f2 p h
          · rw [if_pos hc]
            right
            have hmaiormem : consolidateMaior p h ∈ equipesAtivas p h :=
              argmaxList_mem _ _ hativasne
            have hmaiors : consolidateMaior p h < p.s := by
              rw [equipesAtivas, List.mem_filter] at hmaiormem
              exact List.mem_range.mp hmaiormem.1
            have hltn : equipesUtilizadas p (consolidateCand2 p x y h).h <
                equipesUtilizadas p h := by
              have : ((equipesUtilizadas p (consolidateCand2 p x y h).h : ℚ)) <
                  ((equipesUtilizadas p h : ℚ)) := hc.2
              exact_mod_cast this
            obtain ⟨hdact, hdother⟩ :=
              consolidate_move_facts p x y h hsh (consolidateMaior p h) hmaiors hmenact
            refine ⟨by simp, ?_, hltn⟩
            exact equipesUtilizadas_ge p h _ (consolidateMenor p h)
              (consolidateMaior p h) hmaiors hdact hdother
          · rw [if_neg hc]
            exact Or.inl ⟨rfl, rfl⟩
        · rw [if_neg hmm]
          exact Or.inl ⟨rfl, rfl⟩
    · rw [if_neg hact1]
      exact Or.inl ⟨rfl, rfl⟩
  refine ⟨hf1, ?_, ?_⟩
  · intro himp
    rcases hkey with ⟨hfalse, -⟩ | ⟨-, hge, hlt⟩
    · rw [himp] at hfalse
      exact absurd hfalse (by simp)
    · omega
  · rcases hkey with ⟨-, heq⟩ | ⟨-, -, hlt⟩
    · rw [heq]
    · exact le_of_lt hlt

/-- Witness for C6 at the concrete 2-asset, 1-base, 1-team instance. -/
theorem c6_consolidate_active_teams_witness :
    shapeOk probW xW yW hW ∧
    (∀ i, i < probW.n → somaBasesAtivo probW xW i = 1) ∧
    (∀ i, i < probW.n → somaEquipesAtivo probW hW i = 1) ∧
    (consolidate_equipes probW Obj.f1 xW yW hW =
        (⟨xW, yW, hW⟩, objVal probW Obj.f1 ⟨xW, yW, hW⟩, false) ∧
      ((consolidate_equipes probW Obj.f2 xW yW hW).2.2 = true →
        equipesUtilizadas probW (consolidate_equipes probW Obj.f2 xW yW hW).1.h + 1 =
          equipesUtilizadas probW hW) ∧
      equipesUtilizadas probW (consolidate_equipes probW Obj.f2 xW yW hW).1.h ≤
        equipesUtilizadas probW hW) :=
  ⟨by constructor; · with_unfolding_all decide
      all_goals constructor
      · with_unfolding_all decide
      all_goals constructor <;> with_unfolding_all decide,
   by with_unfolding_all decide, by with_unfolding_all decide,
   c6_consolidate_active_teams probW xW yW hW
     (by constructor; · with_unfolding_all decide
         all_goals constructor
         · with_unfolding_all decide
         all_goals constructor <;> with_unfolding_all decide)
     (by with_unfolding_all decide) (by with_unfolding_all decide)⟩

end ClaimC6

section EnumerationLemmas

lemma mem_allRows (n : Nat) (r : List Bool) : r ∈ allRows n ↔ r.length = n := by
  induction n generalizing r with
  | zero =>
    simp only [allRows, List.mem_singleton]
    constructor
    · intro h; rw [h]; rfl
    · intro h; exact List.eq_nil_of_length_eq_zero h
  | succ n ih =>
    simp only [allRows, List.mem_flatMap]
    constructor
    · rintro ⟨r', hr', hmem⟩
      have hlen : r'.length = n := (ih r').mp hr'
      rcases List.mem_cons.mp hmem with h | h
      · rw [h]; simp [hlen]
      · rcases List.mem_cons.mp h with h2 | h2
        · rw [h2]; simp [hlen]
        · cases h2
    · intro hlen
      cases r with
      | nil => exact absurd hlen (by simp)
      | cons b r'' =>
        refine ⟨r'', (ih r'').mpr (by simpa using hlen), ?_⟩
        cases b
        · exact List.mem_cons_self _ _
        · exact List.mem_cons_of_mem _ (List.mem_cons_self _ _)

lemma mem_allMatsOfShape (sh : List Nat) (A : Mat) :
    A ∈ allMatsOfShape sh ↔ matShape A = sh := by
  induction sh generalizing A with
  | nil =>
    simp only [allMatsOfShape, List.mem_singleton]
    constructor
    · intro h; rw [h]; rfl
    · intro h
      cases A with
      | nil => rfl
      | cons r A' => exact absurd h (by simp [matShape])
  | cons c cs ih =>
    simp only [allMatsOfShape, List.mem_flatMap, List.mem_map]
    constructor
    · rintro ⟨M, hM, r, hr, heq⟩
      rw [← heq]
      have hM' := (ih M).mp hM
      simp only [matShape, List.map_cons]
      rw [(mem_allRows c r).mp hr]
      simp only [matShape] at hM'
      rw [hM']
    · intro hsh
      cases A with
      | nil => exact absurd hsh (by simp [matShape])
      | cons r A' =>
        simp only [matShape, List.map_cons, List.cons.injEq] at hsh
        exact ⟨A', (ih A').mpr hsh.2, r, (mem_allRows c r).mpr hsh.1, rfl⟩

lemma mem_allSolsOfShape (sx sy sh : List Nat) (s' : Sol) :
    s' ∈ allSolsOfShape sx sy sh ↔
      matShape s'.x = sx ∧ matShape s'.y = sy ∧ matShape s'.h = sh := by
  simp only [allSolsOfShape, List.mem_flatMap, List.mem_map]
  constructor
  · rintro ⟨a, ha, b, hb, c, hc, heq⟩
    rw [← heq]
    exact ⟨(mem_allMatsOfShape sx a).mp ha, (mem_allMatsOfShape sy b).mp hb,
      (mem_allMatsOfShape sh c).mp hc⟩
  · rintro ⟨hx, hy, hh⟩
    exact ⟨s'.x, (mem_allMatsOfShape sx s'.x).mpr hx, s'.y,
      (mem_allMatsOfShape sy s'.y).mpr hy,
      s'.h, (mem_allMatsOfShape sh s'.h).mpr hh, rfl⟩

end EnumerationLemmas

section KeyLemmas

lemma keyLt_irrefl (p : Prob) (o : Obj) (a : Sol) : ¬ keyLt p o a a := by
  rintro (h | ⟨-, h⟩) <;> exact lt_irrefl _ h

lemma keyLt_trans (p : Prob) (o : Obj) (a b c : Sol)
    (hab : keyLt p o a b) (hbc : keyLt p o b c) : keyLt p o a c := by
  rcases hab with h1 | ⟨e1, l1⟩ <;> rcases hbc with h2 | ⟨e2, l2⟩
  · exact Or.inl (lt_trans h1 h2)
  · exact Or.inl (e2 ▸ h1)
  · exact Or.inl (e1 ▸ h2)
  · exact Or.inr ⟨e1.trans e2, lt_trans l1 l2⟩

lemma countP_strict_mono {α : Type} (l : List α) (f g : α → Bool)
    (himp : ∀ a ∈ l, f a = true → g a = true) (x : α) (hx : x ∈ l)
    (hgx : g x = true) (hfx : f x = false) :
    l.countP f < l.countP g := by
  induction l with
  | nil => cases hx
  | cons a t ih =>
    rw [List.countP_cons, List.countP_cons]
    rcases List.mem_cons.mp hx with heq | hmem
    · subst heq
      rw [hfx, hgx]
      have hle : t.countP f ≤ t.countP g :=
        List.countP_mono_left fun a ha => himp a (List.mem_cons_of_mem x ha)
      simp only [Bool.false_eq_true, if_false, if_true]
      omega
    · have hlt := ih (fun a ha => himp a (List.mem_cons_of_mem _ ha)) hmem
      have hif : (if f a = true then 1 else 0) ≤ (if g a = true then 1 else 0) := by
        split_ifs with hfa hga
        · omega
        · exact absurd (himp a (List.mem_cons_self a t) hfa) hga
        · omega
        · omega
      omega

lemma vndMeasure_lt (p : Prob) (o : Obj) (sx sy sh : List Nat) (a b : Sol)
    (hax : matShape a.x = sx) (hay : matShape a.y = sy) (hah : matShape a.h = sh)
    (hkey : keyLt p o a b) :
    vndMeasure p o sx sy sh a < vndMeasure p o sx sy sh b := by
  unfold vndMeasure
  refine countP_strict_mono _ _ _ ?_ a ?_ ?_ ?_
  · intro s' _ hf
    rw [decide_eq_true_iff] at hf ⊢
    exact keyLt_trans p o s' a b hf hkey
  · exact (mem_allSolsOfShape sx sy sh a).mpr ⟨hax, hay, hah⟩
  · rw [decide_eq_true_iff]
    exact hkey
  · rw [decide_eq_false_iff_not]
    exact keyLt_irrefl p o a

end KeyLemmas

section TournamentLemmas

lemma tournament_accept_facts (p : Prob) (o : Obj) (a b : Sol)
    (hacc : (tournament_selection p o a b).2 = true) :
    keyLt p o b a ∧ (tournament_selection p o a b).1 = b := by
  unfold tournament_selection at hacc ⊢
  by_cases h1 : violSol p a = 0 ∧ violSol p b = 0
  · rw [if_pos h1] at hacc ⊢
    by_cases h2 : objVal p o b < objVal p o a
    · rw [if_pos h2] at hacc ⊢
      exact ⟨Or.inr ⟨by rw [h1.1, h1.2], h2⟩, rfl⟩
    · rw [if_neg h2] at hacc
      exact absurd hacc (by simp)
  · rw [if_neg h1] at hacc ⊢
    by_cases h3 : violSol p b = 0 ∧ 0 < violSol p a
    · rw [if_pos h3] at hacc ⊢
      exact ⟨Or.inl (by rw [h3.1]; exact h3.2), rfl⟩
    · rw [if_neg h3] at hacc ⊢
      by_cases h4 : violSol p a = 0 ∧ 0 < violSol p b
      · rw [if_pos h4] at hacc
        exact absurd hacc (by simp)
      · rw [if_neg h4] at hacc ⊢
        by_cases h5 : violSol p b < violSol p a
        · rw [if_pos h5] at hacc ⊢
          exact ⟨Or.inl h5, rfl⟩
        · rw [if_neg h5] at hacc
          exact absurd hacc (by simp)

lemma tournament_reject_sol (p : Prob) (o : Obj) (a b : Sol)
    (hacc : (tournament_selection p o a b).2 = false) :
    (tournament_selection p o a b).1 = a := by
  unfold tournament_selection at hacc ⊢
  by_cases h1 : violSol p a = 0 ∧ violSol p b = 0
  · rw [if_pos h1] at hacc ⊢
    by_cases h2 : objVal p o b < objVal p o a
    · rw [if_pos h2] at hacc
      exact absurd hacc (by simp)
    · rw [if_neg h2]
  · rw [if_neg h1] at hacc ⊢
    by_cases h3 : violSol p b = 0 ∧ 0 < violSol p a
    · rw [if_pos h3] at hacc
      exact absurd hacc (by simp)
    · rw [if_neg h3] at hacc ⊢
      by_cases h4 : violSol p a = 0 ∧ 0 < violSol p b
      · rw [if_pos h4]
      · rw [if_neg h4] at hacc ⊢
        by_cases h5 : violSol p b < violSol p a
        · rw [if_pos h5] at hacc
          exact absurd hacc (by simp)
        · rw [if_neg h5]

lemma tournament_sol_cases (p : Prob) (o : Obj) (a b : Sol) :
    (tournament_selection p o a b).1 = a ∨ (tournament_selection p o a b).1 = b := by
  cases hacc : (tournament_selection p o a b).2 with
  | false => exact Or.inl (tournament_reject_sol p o a b hacc)
  | true => exact Or.inr (tournament_accept_facts p o a b hacc).2

lemma tournament_self_reject (p : Prob) (o : Obj) (a : Sol) :
    (tournament_selection p o a a).2 = false := by
  unfold tournament_selection
  by_cases h1 : violSol p a = 0 ∧ violSol p a = 0
  · rw [if_pos h1, if_neg (lt_irrefl (objVal p o a))]
  · rw [if_neg h1,
      if_neg (fun hcon : violSol p a = 0 ∧ 0 < violSol p a =>
        absurd (hcon.1 ▸ hcon.2) (lt_irrefl 0)),
      if_neg (fun hcon : violSol p a = 0 ∧ 0 < violSol p a =>
        absurd (hcon.1 ▸ hcon.2) (lt_irrefl 0)),
      if_neg (lt_irrefl (violSol p a))]

lemma tournament_preserves_feasible (p : Prob) (o : Obj) (a b : Sol)
    (hva : violSol p a = 0) : violSol p (tournament_selection p o a b).1 = 0 := by
  cases hacc : (tournament_selection p o a b).2 with
  | false => rw [tournament_reject_sol p o a b hacc]; exact hva
  | true =>
    obtain ⟨hkey, hsol⟩ := tournament_accept_facts p o a b hacc
    rw [hsol]
    have hvb := violSol_nonneg p b
    rcases hkey with hlt | ⟨heq, -⟩
    · rw [hva] at hlt
      linarith
    · rw [heq, hva]

end TournamentLemmas

section ShapeLemmas

lemma foldl_bestStep_sol_cases (p : Prob) (o : Obj) :
    ∀ (l : List Sol) (acc : BestAcc),
      (l.foldl (bestStep p o) acc).sol = acc.sol ∨ (l.foldl (bestStep p o) acc).sol ∈ l := by
  intro l
  induction l with
  | nil => intro acc; exact Or.inl rfl
  | cons c t ih =>
    intro acc
    rw [List.foldl_cons]
    rcases ih (bestStep p o acc c) with h | h
    · rw [h]
      unfold bestStep
      split_ifs
      · exact Or.inr (List.mem_cons_self c t)
      · exact Or.inl rfl
    · exact Or.inr (List.mem_cons_of_mem c h)

lemma bestFold_sol_cases (p : Prob) (o : Obj) (init : Sol) (cands : List Sol) :
    (bestFold p o init cands).sol = init ∨ (bestFold p o init cands).sol ∈ cands := by
  rcases foldl_bestStep_sol_cases p o cands ⟨init, objVal p o init, false⟩ with h | h
  · exact Or.inl h
  · exact Or.inr h

lemma shiftCands_shape (p : Prob) (x y h : Mat) (c : Sol)
    (hc : c ∈ shiftCands p x y h) :
    matShape c.x = matShape x ∧ matShape c.y = matShape y ∧
      matShape c.h = matShape h := by
  rw [shiftCands] at hc
  simp only [List.mem_flatMap, List.mem_map] at hc
  obtain ⟨i, -, k, -, heq⟩ := hc
  rw [← heq]
  exact ⟨rfl, rfl, by rw [matShape_setE, matShape_setE]⟩

lemma taskMoveCands_shape (p : Prob) (x y h : Mat) (c : Sol)
    (hc : c ∈ taskMoveCands p x y h) :
    matShape c.x = matShape x ∧ matShape c.y = matShape y ∧
      matShape c.h = matShape h := by
  rw [taskMoveCands] at hc
  simp only [List.mem_flatMap] at hc
  obtain ⟨i, -, hc⟩ := hc
  rw [List.mem_ite_nil_right] at hc
  obtain ⟨-, hc⟩ := hc
  rw [List.mem_filterMap] at hc
  obtain ⟨j, -, hfj⟩ := hc
  by_cases hne : equipesDaBase p y j ≠ []
  · rw [if_pos hne] at hfj
    injection hfj with heq
    rw [← heq]
    exact ⟨by rw [matShape_setE, matShape_setE], rfl,
      by rw [matShape_setE, matShape_setE]⟩
  · rw [if_neg hne] at hfj
    cases hfj

lemma swapCands_shape (p : Prob) (x y h : Mat) (sample : List Nat) (c : Sol)
    (hc : c ∈ swapCands p x y h sample) :
    matShape c.x = matShape x ∧ matShape c.y = matShape y ∧
      matShape c.h = matShape h := by
  rw [swapCands] at hc
  simp only [List.mem_flatMap] at hc
  obtain ⟨i, -, hc⟩ := hc
  rw [List.mem_filterMap] at hc
  obtain ⟨j, -, hfj⟩ := hc
  by_cases hbase : firstIdx p.m (fun j => getE x i j) ≠ firstIdx p.m (fun j' => getE x j j')
  · rw [if_pos hbase] at hfj
    by_cases hteams : equipesDaBase p y (firstIdx p.m (fun j' => getE x j j')) ≠ [] ∧
        equipesDaBase p y (firstIdx p.m (fun j => getE x i j)) ≠ []
    · rw [if_pos hteams] at hfj
      injection hfj with heq
      rw [← heq]
      refine ⟨?_, rfl, ?_⟩
      · rw [matShape_setE, matShape_setE, matShape_setE, matShape_setE]
      · rw [matShape_setE, matShape_setE, matShape_setE, matShape_setE]
    · rw [if_neg hteams] at hfj
      cases hfj
  · rw [if_neg hbase] at hfj
    cases hfj

lemma twoOptCands_shape (p : Prob) (x y h : Mat) (c : Sol)
    (hc : c ∈ twoOptCands p x y h) :
    matShape c.x = matShape x ∧ matShape c.y = matShape y ∧
      matShape c.h = matShape h := by
  rw [twoOptCands] at hc
  simp only [List.mem_flatMap] at hc
  obtain ⟨k, -, hc⟩ := hc
  cases hbk : basesDaEquipe p y k with
  | nil => rw [hbk] at hc; cases hc
  | cons b0 rest =>
    rw [hbk] at hc
    rw [List.mem_ite_nil_right] at hc
    obtain ⟨-, hc⟩ := hc
    rw [List.mem_map] at hc
    obtain ⟨j, -, heq⟩ := hc
    rw [← heq]
    exact ⟨moveFold_matShape b0 j _ x, by rw [matShape_setE, matShape_setE], rfl⟩

lemma consolidate_sol_shape (p : Prob) (o : Obj) (x y h : Mat) :
    matShape (consolidate_equipes p o x y h).1.x = matShape x ∧
    matShape (consolidate_equipes p o x y h).1.y = matShape y ∧
    matShape (consolidate_equipes p o x y h).1.h = matShape h := by
  unfold consolidate_equipes
  by_cases ho : o = Obj.f2
  · subst ho
    rw [if_pos rfl]
    by_cases hact : 1 < (equipesAtivas p h).length
    · rw [if_pos hact]
      cases hfind : (consolidateOutras p y h).find? (consolidatePred p x y h) with
      | some dest =>
        simp only [hfind]
        exact ⟨rfl, by rw [consolidateCand1, matShape_setE],
          moveFold_matShape _ _ _ h⟩
      | none =>
        simp only [hfind]
        by_cases hmm : consolidateMaior p h ≠ consolidateMenor p h
        · rw [if_pos hmm]
          split_ifs
          · exact ⟨moveFold_matShape _ _ _ x,
              by rw [consolidateCand2, matShape_setE], moveFold_matShape _ _ _ h⟩
          · exact ⟨rfl, rfl, rfl⟩
        · rw [if_neg hmm]
          exact ⟨rfl, rfl, rfl⟩
    · rw [if_neg hact]
      exact ⟨rfl, rfl, rfl⟩
  · rw [if_neg ho]
    exact ⟨rfl, rfl, rfl⟩

lemma exploreS_shape (p : Prob) (o : Obj) (sample : List Nat) (l : Nat) (sol : Sol) :
    matShape (exploreS p o sample l sol).1.x = matShape sol.x ∧
    matShape (exploreS p o sample l sol).1.y = matShape sol.y ∧
    matShape (exploreS p o sample l sol).1.h = matShape sol.h := by
  have hbf : ∀ (cands : List Sol),
      (∀ c ∈ cands, matShape c.x = matShape sol.x ∧ matShape c.y = matShape sol.y ∧
        matShape c.h = matShape sol.h) →
      matShape (bestFold p o ⟨sol.x, sol.y, sol.h⟩ cands).sol.x = matShape sol.x ∧
      matShape (bestFold p o ⟨sol.x, sol.y, sol.h⟩ cands).sol.y = matShape sol.y ∧
      matShape (bestFold p o ⟨sol.x, sol.y, sol.h⟩ cands).sol.h = matShape sol.h := by
    intro cands hall
    rcases bestFold_sol_cases p o ⟨sol.x, sol.y, sol.h⟩ cands with hcase | hcase
    · rw [hcase]
      exact ⟨rfl, rfl, rfl⟩
    · exact hall _ hcase
  rcases l with _ | _ | _ | _ | l4
  · exact hbf _ (fun c hc => shiftCands_shape p sol.x sol.y sol.h c hc)
  · exact hbf _ (fun c hc => taskMoveCands_shape p sol.x sol.y sol.h c hc)
  · exact hbf _ (fun c hc => swapCands_shape p sol.x sol.y sol.h sample c hc)
  · exact hbf _ (fun c hc => twoOptCands_shape p sol.x sol.y sol.h c hc)
  · exact consolidate_sol_shape p o sol.x sol.y sol.h

end ShapeLemmas


section VndStepLemmas

lemma vndStep_cases (p : Prob) (o : Obj) (sampler : Nat → List Nat) (st : VndSt) :
    ((vndStep p o sampler st).sol = st.sol ∧ (vndStep p o sampler st).val = st.val ∧
      (vndStep p o sampler st).l = st.l + 1) ∨
    (keyLt p o (vndStep p o sampler st).sol st.sol ∧ (vndStep p o sampler st).l = 0) := by
  unfold vndStep
  by_cases hacc : (tournament_selection p o st.sol
      (exploreS p o (sampler st.t) st.l st.sol).1).2 = true
  · rw [if_pos hacc]
    obtain ⟨hkey, hsol⟩ := tournament_accept_facts p o st.sol
      (exploreS p o (sampler st.t) st.l st.sol).1 hacc
    refine Or.inr ⟨?_, rfl⟩
    show keyLt p o (tournament_selection p o st.sol
      (exploreS p o (sampler st.t) st.l st.sol).1).1 st.sol
    rw [hsol]
    exact hkey
  · rw [if_neg hacc]
    exact Or.inl ⟨rfl, rfl, rfl⟩

lemma vndStep_shape (p : Prob) (o : Obj) (sampler : Nat → List Nat) (st : VndSt) :
    matShape (vndStep p o sampler st).sol.x = matShape st.sol.x ∧
    matShape (vndStep p o sampler st).sol.y = matShape st.sol.y ∧
    matShape (vndStep p o sampler st).sol.h = matShape st.sol.h := by
  unfold vndStep
  split_ifs with hacc
  · rcases tournament_sol_cases p o st.sol
      (exploreS p o (sampler st.t) st.l st.sol).1 with hcase | hcase
    · show matShape (tournament_selection p o st.sol _).1.x = _ ∧
        matShape (tournament_selection p o st.sol _).1.y = _ ∧
        matShape (tournament_selection p o st.sol _).1.h = _
      rw [hcase]
      exact ⟨rfl, rfl, rfl⟩
    · show matShape (tournament_selection p o st.sol _).1.x = _ ∧
        matShape (tournament_selection p o st.sol _).1.y = _ ∧
        matShape (tournament_selection p o st.sol _).1.h = _
      rw [hcase]
      exact exploreS_shape p o (sampler st.t) st.l st.sol
  · exact ⟨rfl, rfl, rfl⟩

lemma vnd_terminates_aux (p : Prob) (o : Obj) (sampler : Nat → List Nat)
    (sx sy sh : List Nat) :
    ∀ (N : Nat) (st : VndSt),
      matShape st.sol.x = sx → matShape st.sol.y = sy → matShape st.sol.h = sh →
      vndMeasure p o sx sy sh st.sol * (lmax o + 1) + (lmax o - st.l) ≤ N →
      ∃ fuel out, vndFuel p o sampler fuel st = some out := by
  intro N
  induction N using Nat.strong_induction_on with
  | _ N ih =>
    intro st hx hy hh hN
    by_cases hdone : lmax o ≤ st.l
    · refine ⟨0, (st.sol, st.val), ?_⟩
      simp only [vndFuel]
      rw [if_pos hdone]
    · push_neg at hdone
      have hshape := vndStep_shape p o sampler st
      rcases vndStep_cases p o sampler st with ⟨hsol, hval, hl⟩ | ⟨hkey, hl⟩
      · have hmeq : vndMeasure p o sx sy sh (vndStep p o sampler st).sol =
            vndMeasure p o sx sy sh st.sol := by rw [hsol]
        obtain ⟨fuel, out, hout⟩ := ih (N - 1) (by omega) (vndStep p o sampler st)
          (hshape.1.trans hx) (hshape.2.1.trans hy) (hshape.2.2.trans hh)
          (by rw [hmeq, hl]; omega)
        refine ⟨fuel + 1, out, ?_⟩
        simp only [vndFuel]
        rw [if_neg (by omega)]
        exact hout
      · have hmlt : vndMeasure p o sx sy sh (vndStep p o sampler st).sol <
            vndMeasure p o sx sy sh st.sol :=
          vndMeasure_lt p o sx sy sh _ st.sol (hshape.1.trans hx) (hshape.2.1.trans hy)
            (hshape.2.2.trans hh) hkey
        have hmul : (vndMeasure p o sx sy sh (vndStep p o sampler st).sol + 1) *
            (lmax o + 1) ≤ vndMeasure p o sx sy sh st.sol * (lmax o + 1) :=
          Nat.mul_le_mul_right _ hmlt
        rw [Nat.succ_mul] at hmul
        obtain ⟨fuel, out, hout⟩ := ih (N - 1) (by omega) (vndStep p o sampler st)
          (hshape.1.trans hx) (hshape.2.1.trans hy) (hshape.2.2.trans hh)
          (by rw [hl]; omega)
        refine ⟨fuel + 1, out, ?_⟩
        simp only [vndFuel]
        rw [if_neg (by omega)]
        exact hout

end VndStepLemmas

section ClaimC5

/-- Claim C5 (confirmed): `variable_neighborhood_descent` terminates for
every input solution, objective and sequence of swap samples: the
neighbourhood count is 4 for `'f1'` and 5 for `'f2'`, and some finite fuel
always suffices for the loop (which starts at `l = 0`, resets `l` on every
accepted improvement and increments it otherwise) to reach `l = l_max` and
return — there is no other iteration cap. -/
theorem c5_vnd_terminates (p : Prob) (o : Obj) (sampler : Nat → List Nat)
    (sol : Sol) (t0 : Nat) :
    lmax Obj.f1 = 4 ∧ lmax Obj.f2 = 5 ∧
    ∃ fuel out, vndFuel p o sampler fuel (vndInit p o sol t0) = some out :=
  ⟨rfl, rfl,
    vnd_terminates_aux p o sampler (matShape sol.x) (matShape sol.y) (matShape sol.h)
      (vndMeasure p o (matShape sol.x) (matShape sol.y) (matShape sol.h) sol *
        (lmax o + 1) + (lmax o - 0))
      (vndInit p o sol t0) rfl rfl rfl (le_refl _)⟩

end ClaimC5

section ClaimC10

lemma vndStep_preserves_feasible (p : Prob) (o : Obj) (sampler : Nat → List Nat)
    (st : VndSt) (hf : violSol p st.sol = 0) :
    violSol p (vndStep p o sampler st).sol = 0 := by
  unfold vndStep
  split_ifs with hacc
  · show violSol p (tournament_selection p o st.sol
      (exploreS p o (sampler st.t) st.l st.sol).1).1 = 0
    exact tournament_preserves_feasible p o st.sol _ hf
  · exact hf

lemma vndFuel_feasible (p : Prob) (o : Obj) (sampler : Nat → List Nat) :
    ∀ (fuel : Nat) (st : VndSt) (out : Sol × ℚ),
      violSol p st.sol = 0 → vndFuel p o sampler fuel st = some out →
      violSol p out.1 = 0 := by
  intro fuel
  induction fuel with
  | zero =>
    intro st out hf hout
    simp only [vndFuel] at hout
    by_cases hdone : lmax o ≤ st.l
    · rw [if_pos hdone] at hout
      injection hout with he
      rw [← he]
      exact hf
    · rw [if_neg hdone] at hout
      cases hout
  | succ fuel ih =>
    intro st out hf hout
    simp only [vndFuel] at hout
    by_cases hdone : lmax o ≤ st.l
    · rw [if_pos hdone] at hout
      injection hout with he
      rw [← he]
      exact hf
    · rw [if_neg hdone] at hout
      exact ih (vndStep p o sampler st) out
        (vndStep_preserves_feasible p o sampler st hf) hout

set_option maxHeartbeats 2000000 in
lemma vnsFuel_feasible (p : Prob) (o : Obj) (maxIter maxSem vndBudget : Nat)
    (vndSampler : Nat → Nat → List Nat) (perm : Nat → List Nat)
    (coin : Nat → Nat → Bool) (pick : Nat → Nat → Nat) :
    ∀ (fuel : Nat) (st : VnsSt) (out : Sol),
      violSol p st.sol = 0 →
      vnsFuel p o maxIter maxSem vndBudget vndSampler perm coin pick fuel st =
        some out →
      violSol p out = 0 := by
  intro fuel
  induction fuel with
  | zero =>
    intro st out hf hout
    simp only [vnsFuel] at hout
    by_cases hdone : maxIter ≤ st.iter
    · rw [if_pos hdone] at hout
      injection hout with he
      rw [← he]
      exact hf
    · rw [if_neg hdone] at hout
      by_cases hk : st.k ≤ 3
      · rw [if_pos hk] at hout
        cases hout
      · rw [if_neg hk] at hout
        by_cases hsem : maxSem ≤ st.semMelhoria + 1
        · rw [if_pos hsem] at hout
          injection hout with he
          rw [← he]
          exact hf
        · rw [if_neg hsem] at hout
          cases hout
  | succ fuel ih =>
    intro st out hf hout
    simp only [vnsFuel] at hout
    by_cases hdone : maxIter ≤ st.iter
    · rw [if_pos hdone] at hout
      injection hout with he
      rw [← he]
      exact hf
    · rw [if_neg hdone] at hout
      by_cases hk : st.k ≤ 3
      · rw [if_pos hk] at hout
        split at hout
        · cases hout
        · rename_i scrut vizSol vizVal heqVnd
          by_cases hacc : (tournament_selection p o st.sol vizSol).2 = true
          · rw [if_pos hacc] at hout
            exact ih ⟨(tournament_selection p o st.sol vizSol).1, st.iter, 1, 0, st.t + 1⟩
              out (tournament_preserves_feasible p o st.sol vizSol hf) hout
          · rw [if_neg hacc] at hout
            exact ih ⟨st.sol, st.iter, st.k + 1, st.semMelhoria, st.t + 1⟩ out hf hout
      · rw [if_neg hk] at hout
        by_cases hsem : maxSem ≤ st.semMelhoria + 1
        · rw [if_pos hsem] at hout
          injection hout with he
          rw [← he]
          exact hf
        · rw [if_neg hsem] at hout
          exact ih ⟨st.sol, st.iter + 1, 1, st.semMelhoria + 1, st.t⟩ out hf hout

/-- Claim C10 (confirmed): feasibility is absorbing along the search.  Every
replacement goes through `tournament_selection`, which never replaces a
feasible current solution by an infeasible one; consequently both
`variable_neighborhood_descent` and the single-objective `vns` driver map a
feasible current solution to a feasible result, for every random draw. -/
theorem c10_feasibility_absorbing (p : Prob) (o : Obj) (sampler : Nat → List Nat)
    (maxIter maxSem vndBudget : Nat) (vndSampler : Nat → Nat → List Nat)
    (perm : Nat → List Nat) (coin : Nat → Nat → Bool) (pick : Nat → Nat → Nat) :
    (∀ a b : Sol, violSol p a = 0 → violSol p (tournament_selection p o a b).1 = 0) ∧
    (∀ (fuel : Nat) (st : VndSt) (out : Sol × ℚ), violSol p st.sol = 0 →
      vndFuel p o sampler fuel st = some out → violSol p out.1 = 0) ∧
    (∀ (fuel : Nat) (st : VnsSt) (out : Sol), violSol p st.sol = 0 →
      vnsFuel p o maxIter maxSem vndBudget vndSampler perm coin pick fuel st =
        some out →
      violSol p out = 0) :=
  ⟨fun a b hva => tournament_preserves_feasible p o a b hva,
    vndFuel_feasible p o sampler,
    vnsFuel_feasible p o maxIter maxSem vndBudget vndSampler perm coin pick⟩

/-- Witness for C10: a concrete feasible run of the driver on the tiny
2-asset instance. -/
theorem c10_feasibility_absorbing_witness :
    violSol probW ⟨xW, yW, hW⟩ = 0 ∧
    vnsFuel probW Obj.f1 1 5 10 (fun _ _ => [0, 1]) (fun _ => [0, 1])
        (fun _ _ => true) (fun _ _ => 0) 30 ⟨⟨xW, yW, hW⟩, 0, 1, 0, 0⟩ =
      some ⟨xW, yW, hW⟩ ∧
    violSol probW ⟨xW, yW, hW⟩ = 0 :=
  ⟨by with_unfolding_all decide, by with_unfolding_all decide,
    (c10_feasibility_absorbing probW Obj.f1 (fun _ => [0, 1]) 1 5 10
        (fun _ _ => [0, 1]) (fun _ => [0, 1]) (fun _ _ => true) (fun _ _ => 0)).2.2
      30 ⟨⟨xW, yW, hW⟩, 0, 1, 0, 0⟩ ⟨xW, yW, hW⟩ (by with_unfolding_all decide)
      (by with_unfolding_all decide)⟩

end ClaimC10

section ShakeLemmas

lemma firstIdx_spec {d : Nat} {f : Nat → Bool} (hone : natCount d f = 1) :
    f (firstIdx d f) = true ∧ firstIdx d f < d ∧
      (∀ j, j < d → f j = true → j = firstIdx d f) := by
  have hpos : 0 < natCount d f := by omega
  obtain ⟨j0, hj0d, hj0f⟩ := natCount_pos_iff.mp hpos
  have hne : (List.range d).find? f ≠ none := by
    intro hnone
    rw [List.find?_eq_none] at hnone
    exact (hnone j0 (List.mem_range.mpr hj0d)) hj0f
  cases hfind : (List.range d).find? f with
  | none => exact absurd hfind hne
  | some j1 =>
    have hf1 : f j1 = true := List.find?_some hfind
    have hd1 : j1 < d := List.mem_range.mp (List.mem_of_find?_eq_some hfind)
    have hfi : firstIdx d f = j1 := by rw [firstIdx, hfind]; rfl
    rw [hfi]
    exact ⟨hf1, hd1, fun j hj hfj => natCount_unique (le_of_eq hone) j j1 hj hd1 hfj hf1⟩

lemma natCount_eq_one_of {d : Nat} {f : Nat → Bool} (a : Nat) (ha : a < d)
    (hfa : f a = true) (hother : ∀ j, j < d → j ≠ a → f j = false) :
    natCount d f = 1 := by
  rw [natCount_eq_card]
  have hset : (Finset.range d).filter (fun i => f i = true) =
      (Finset.range d).filter (fun i => i = a) := by
    apply Finset.filter_congr
    intro j hj
    rw [Finset.mem_range] at hj
    by_cases hja : j = a
    · subst hja
      simp [hfa]
    · simp [hother j hj hja, hja]
  rw [hset, Finset.filter_eq', if_pos (Finset.mem_range.mpr ha), Finset.card_singleton]

lemma getD_mod_mem (l : List Nat) (hne : l ≠ []) (k : Nat) :
    l.getD (k % l.length) 0 ∈ l := by
  have hlen : 0 < l.length := List.length_pos.mpr hne
  have hlt : k % l.length < l.length := Nat.mod_lt k hlen
  rw [List.getD_eq_getElem?_getD, List.getElem?_eq_getElem hlt, Option.getD_some]
  exact List.getElem_mem hlt

lemma shakeNovaBase_mem (p : Prob) (xs ys : Mat) (i : Nat) (coin : Bool) (pick : Nat)
    (hne : shakeBasesValidas p xs ys i ≠ []) :
    shakeNovaBase p xs ys i coin pick ∈ shakeBasesValidas p xs ys i := by
  unfold shakeNovaBase
  split_ifs
  · have hsortlen : (List.insertionSort (fun a b => p.dist i a ≤ p.dist i b)
        (shakeBasesValidas p xs ys i)).length = (shakeBasesValidas p xs ys i).length :=
      List.length_insertionSort _ _
    have hvlen : 0 < (shakeBasesValidas p xs ys i).length := List.length_pos.mpr hne
    have htne : ((List.insertionSort (fun a b => p.dist i a ≤ p.dist i b)
        (shakeBasesValidas p xs ys i)).take
        (min 3 (shakeBasesValidas p xs ys i).length)) ≠ [] := by
      intro hnil
      have := congrArg List.length hnil
      rw [List.length_take, hsortlen] at this
      simp only [List.length_nil] at this
      omega
    have hmem := getD_mod_mem _ htne pick
    exact ((List.perm_insertionSort (fun a b => p.dist i a ≤ p.dist i b)
      (shakeBasesValidas p xs ys i)).mem_iff).mp (List.mem_of_mem_take hmem)
  · exact getD_mod_mem _ hne pick

lemma shakeBasesValidas_facts (p : Prob) (xs ys : Mat) (i j : Nat)
    (hj : j ∈ shakeBasesValidas p xs ys i) :
    j < p.m ∧ 0 < equipesNaBase p ys j ∧ j ≠ shakeBaseAtual p xs i := by
  rw [shakeBasesValidas, List.mem_filter] at hj
  obtain ⟨hj1, hj2⟩ := hj
  rw [basesComEquipes, List.mem_filter] at hj1
  exact ⟨List.mem_range.mp hj1.1, of_decide_eq_true hj1.2,
    by simpa using hj2⟩

lemma equipesDaBase_ne_nil (p : Prob) (ys : Mat) (j : Nat)
    (hpos : 0 < equipesNaBase p ys j) : equipesDaBase p ys j ≠ [] := by
  obtain ⟨k, hkd, hkf⟩ := natCount_pos_iff.mp hpos
  have hkmem : k ∈ equipesDaBase p ys j := by
    rw [equipesDaBase, List.mem_filter]
    exact ⟨List.mem_range.mpr hkd, hkf⟩
  exact List.ne_nil_of_mem hkmem

lemma equipesDaBase_mem_facts (p : Prob) (ys : Mat) (j k : Nat)
    (hk : k ∈ equipesDaBase p ys j) : k < p.s ∧ getE ys j k = true := by
  rw [equipesDaBase, List.mem_filter] at hk
  exact ⟨List.mem_range.mp hk.1, hk.2⟩

end ShakeLemmas

section ShakePreservation

lemma setE_oor (A : Mat) (i j : Nat) (b : Bool) (hge : A.length ≤ i) :
    setE A i j b = A := by
  unfold setE
  exact List.set_eq_of_length_le hge

lemma row_len_of {A : Mat} {n m : Nat} (hlen : A.length = n)
    (hrows : ∀ r ∈ A, r.length = m) {i : Nat} (hi : i < n) :
    (A.getD i []).length = m := by
  have hlt : i < A.length := by omega
  rw [List.getD_eq_getElem?_getD, List.getElem?_eq_getElem hlt, Option.getD_some]
  exact hrows _ (List.getElem_mem hlt)

lemma shakeStep_preserves (p : Prob) (x y h : Mat) (hsh : shapeOk p x y h)
    (coin : Bool) (pick : Nat) (st : Sol) (a : Nat)
    (hy : st.y = y) (hsx : matShape st.x = matShape x) (hsh2 : matShape st.h = matShape h)
    (hrows : ∀ i, i < p.n → somaBasesAtivo p st.x i = 1 ∧ somaEquipesAtivo p st.h i = 1)
    (hmoved : ∀ i j, i < p.n → j < p.m → getE st.x i j = true → getE x i j = false →
      0 < equipesNaBase p y j ∧ ∃ k, k < p.s ∧ getE st.h i k = true ∧ getE y j k = true) :
    (shakeStep p coin pick st a).y = y ∧
    matShape (shakeStep p coin pick st a).x = matShape x ∧
    matShape (shakeStep p coin pick st a).h = matShape h ∧
    (∀ i, i < p.n → somaBasesAtivo p (shakeStep p coin pick st a).x i = 1 ∧
      somaEquipesAtivo p (shakeStep p coin pick st a).h i = 1) ∧
    (∀ i j, i < p.n → j < p.m → getE (shakeStep p coin pick st a).x i j = true →
      getE x i j = false →
      0 < equipesNaBase p y j ∧
        ∃ k, k < p.s ∧ getE (shakeStep p coin pick st a).h i k = true ∧
          getE y j k = true) := by
  have hxlen : st.x.length = p.n := (matShape_length hsx).trans hsh.1
  have hhlen : st.h.length = p.n := (matShape_length hsh2).trans hsh.2.2.2.2.1
  have hxrow : ∀ i, i < p.n → (st.x.getD i []).length = p.m := by
    intro i hi
    rw [matShape_row_len hsx i]
    exact row_len_of hsh.1 hsh.2.1 hi
  have hhrow : ∀ i, i < p.n → (st.h.getD i []).length = p.s := by
    intro i hi
    rw [matShape_row_len hsh2 i]
    exact row_len_of hsh.2.2.2.2.1 hsh.2.2.2.2.2 hi
  by_cases hbv : shakeBasesValidas p st.x st.y a ≠ []
  · have hnbmem := shakeNovaBase_mem p st.x st.y a coin pick hbv
    obtain ⟨hnbm, hnbteams', hnbne⟩ :=
      shakeBasesValidas_facts p st.x st.y a _ hnbmem
    have hnbteams : 0 < equipesNaBase p y (shakeNovaBase p st.x st.y a coin pick) := by
      rw [← hy]
      exact hnbteams'
    have heqne : equipesDaBase p st.y (shakeNovaBase p st.x st.y a coin pick) ≠ [] :=
      equipesDaBase_ne_nil p st.y _ hnbteams'
    have hstep : shakeStep p coin pick st a =
        shakeMove p st a (shakeNovaBase p st.x st.y a coin pick) := by
      unfold shakeStep
      rw [if_pos hbv]
    rw [hstep]
    by_cases han : a < p.n
    · -- the moved asset is a real asset: one full move happens
      obtain ⟨hxa1, hha1⟩ := hrows a han
      obtain ⟨hbaT, hbaM, hbaU⟩ := firstIdx_spec hxa1
      obtain ⟨hanT, hanS, hanU⟩ := firstIdx_spec hha1
      have hkmem : argminList (fun k => ativosEquipe p (shakeRemovedH p st.h a) k)
          (equipesDaBase p st.y (shakeNovaBase p st.x st.y a coin pick)) ∈
          equipesDaBase p st.y (shakeNovaBase p st.x st.y a coin pick) :=
        argminList_mem _ _ heqne
      obtain ⟨hks, hky⟩ := equipesDaBase_mem_facts p st.y _ _ hkmem
      have hmove : shakeMove p st a (shakeNovaBase p st.x st.y a coin pick) =
          ⟨setE (setE st.x a (shakeBaseAtual p st.x a) false) a
            (shakeNovaBase p st.x st.y a coin pick) true, st.y,
            setE (shakeRemovedH p st.h a) a
              (argminList (fun k => ativosEquipe p (shakeRemovedH p st.h a) k)
                (equipesDaBase p st.y (shakeNovaBase p st.x st.y a coin pick))) true⟩ := by
        unfold shakeMove
        rw [if_pos heqne]
      rw [hmove]
      -- facts about the new x row of asset a
      have hxa_nb : getE (setE (setE st.x a (shakeBaseAtual p st.x a) false) a
          (shakeNovaBase p st.x st.y a coin pick) true) a
          (shakeNovaBase p st.x st.y a coin pick) = true := by
        apply getE_setE_eq
        · unfold setE
          rw [List.length_set, hxlen]
          exact han
        · rw [matShape_row_len (matShape_setE st.x a (shakeBaseAtual p st.x a) false) a,
            hxrow a han]
          exact hnbm
      have hxa_other : ∀ j, j < p.m → j ≠ shakeNovaBase p st.x st.y a coin pick →
          getE (setE (setE st.x a (shakeBaseAtual p st.x a) false) a
            (shakeNovaBase p st.x st.y a coin pick) true) a j = false := by
        intro j hj hjne
        rw [getE_setE_ne _ _ _ _ _ _ (Or.inr (Ne.symm hjne))]
        by_cases hjba : j = shakeBaseAtual p st.x a
        · subst hjba
          apply getE_setE_eq
          · rw [hxlen]; exact han
          · rw [hxrow a han]; exact hj
        · rw [getE_setE_ne _ _ _ _ _ _ (Or.inr (Ne.symm hjba))]
          by_contra hcon
          rw [Bool.not_eq_false] at hcon
          exact hjba (hbaU j hj hcon)
      -- facts about the new h row of asset a
      have hha_rm : ∀ k, k < p.s → getE (shakeRemovedH p st.h a) a k = false := by
        intro k hk
        unfold shakeRemovedH
        by_cases hkan : k = firstIdx p.s (fun k' => getE st.h a k')
        · subst hkan
          apply getE_setE_eq
          · rw [hhlen]; exact han
          · rw [hhrow a han]; exact hk
        · rw [getE_setE_ne _ _ _ _ _ _ (Or.inr (Ne.symm hkan))]
          by_contra hcon
          rw [Bool.not_eq_false] at hcon
          exact hkan (hanU k hk hcon)
      have hha_k : getE (setE (shakeRemovedH p st.h a) a
          (argminList (fun k => ativosEquipe p (shakeRemovedH p st.h a) k)
            (equipesDaBase p st.y (shakeNovaBase p st.x st.y a coin pick))) true) a
          (argminList (fun k => ativosEquipe p (shakeRemovedH p st.h a) k)
            (equipesDaBase p st.y (shakeNovaBase p st.x st.y a coin pick))) = true := by
        apply getE_setE_eq
        · unfold shakeRemovedH setE
          rw [List.length_set, hhlen]
          exact han
        · unfold shakeRemovedH
          rw [matShape_row_len (matShape_setE st.h a _ false) a, hhrow a han]
          exact hks
      have hha_other : ∀ k, k < p.s →
          k ≠ argminList (fun k => ativosEquipe p (shakeRemovedH p st.h a) k)
            (equipesDaBase p st.y (shakeNovaBase p st.x st.y a coin pick)) →
          getE (setE (shakeRemovedH p st.h a) a
            (argminList (fun k => ativosEquipe p (shakeRemovedH p st.h a) k)
              (equipesDaBase p st.y (shakeNovaBase p st.x st.y a coin pick))) true) a k =
            false := by
        intro k hk hkne
        rw [getE_setE_ne _ _ _ _ _ _ (Or.inr (Ne.symm hkne))]
        exact hha_rm k hk
      refine ⟨hy, ?_, ?_, ?_, ?_⟩
      · rw [matShape_setE, matShape_setE]
        exact hsx
      · rw [matShape_setE]
        unfold shakeRemovedH
        rw [matShape_setE]
        exact hsh2
      · intro i hi
        by_cases hia : i = a
        · subst hia
          constructor
          · exact natCount_eq_one_of _ hnbm hxa_nb
              (fun j hj hjne => hxa_other j hj hjne)
          · exact natCount_eq_one_of _ hks hha_k
              (fun k hk hkne => hha_other k hk hkne)
        · constructor
          · rw [show somaBasesAtivo p (setE (setE st.x a (shakeBaseAtual p st.x a) false) a
                (shakeNovaBase p st.x st.y a coin pick) true) i =
                somaBasesAtivo p st.x i from natCount_congr (fun j _ => by
                  rw [getE_setE_ne _ _ _ _ _ _ (Or.inl (Ne.symm hia)),
                    getE_setE_ne _ _ _ _ _ _ (Or.inl (Ne.symm hia))])]
            exact (hrows i hi).1
          · rw [show somaEquipesAtivo p (setE (shakeRemovedH p st.h a) a
                (argminList (fun k => ativosEquipe p (shakeRemovedH p st.h a) k)
                  (equipesDaBase p st.y (shakeNovaBase p st.x st.y a coin pick))) true) i =
                somaEquipesAtivo p st.h i from natCount_congr (fun k _ => by
                  unfold shakeRemovedH
                  rw [getE_setE_ne _ _ _ _ _ _ (Or.inl (Ne.symm hia)),
                    getE_setE_ne _ _ _ _ _ _ (Or.inl (Ne.symm hia))])]
            exact (hrows i hi).2
      · intro i j hi hj hxtrue hxfalse
        by_cases hia : i = a
        · subst hia
          by_cases hjnb : j = shakeNovaBase p st.x st.y i coin pick
          · subst hjnb
            refine ⟨hnbteams, ⟨argminList (fun k => ativosEquipe p (shakeRemovedH p st.h i) k)
              (equipesDaBase p st.y (shakeNovaBase p st.x st.y i coin pick)), hks, hha_k, ?_⟩⟩
            rw [← hy]
            exact hky
          · exact absurd hxtrue (by rw [hxa_other j hj hjnb]; exact Bool.false_ne_true)
        · have hxi : getE (setE (setE st.x a (shakeBaseAtual p st.x a) false) a
              (shakeNovaBase p st.x st.y a coin pick) true) i j = getE st.x i j := by
            rw [getE_setE_ne _ _ _ _ _ _ (Or.inl (Ne.symm hia)),
              getE_setE_ne _ _ _ _ _ _ (Or.inl (Ne.symm hia))]
          rw [hxi] at hxtrue
          obtain ⟨hteams, k0, hk0s, hk0h, hk0y⟩ := hmoved i j hi hj hxtrue hxfalse
          refine ⟨hteams, k0, hk0s, ?_, hk0y⟩
          unfold shakeRemovedH
          rw [getE_setE_ne _ _ _ _ _ _ (Or.inl (Ne.symm hia)),
            getE_setE_ne _ _ _ _ _ _ (Or.inl (Ne.symm hia))]
          exact hk0h
    · -- the sampled index is not a real asset: every write is out of range
      push_neg at han
      have hmv : shakeMove p st a (shakeNovaBase p st.x st.y a coin pick) = st := by
        unfold shakeMove shakeRemovedH
        rw [if_pos heqne,
          setE_oor st.x _ _ _ (by omega),
          setE_oor st.x _ _ _ (by omega),
          setE_oor st.h _ _ _ (by omega),
          setE_oor st.h _ _ _ (by omega)]
      rw [hmv]
      exact ⟨hy, hsx, hsh2, hrows, hmoved⟩
  · have hstep : shakeStep p coin pick st a = st := by
      unfold shakeStep
      rw [if_neg hbv]
    rw [hstep]
    exact ⟨hy, hsx, hsh2, hrows, hmoved⟩

end ShakePreservation

section ClaimC7

lemma shakeFold_preserves (p : Prob) (x y h : Mat) (hsh : shapeOk p x y h)
    (coin : Nat → Bool) (pick : Nat → Nat) :
    ∀ (L : List (Nat × Nat)) (st : Sol),
      st.y = y → matShape st.x = matShape x → matShape st.h = matShape h →
      (∀ i, i < p.n → somaBasesAtivo p st.x i = 1 ∧ somaEquipesAtivo p st.h i = 1) →
      (∀ i j, i < p.n → j < p.m → getE st.x i j = true → getE x i j = false →
        0 < equipesNaBase p y j ∧
          ∃ k, k < p.s ∧ getE st.h i k = true ∧ getE y j k = true) →
      (L.foldl (fun st ia => shakeStep p (coin ia.1) (pick ia.1) st ia.2) st).y = y ∧
      matShape (L.foldl (fun st ia => shakeStep p (coin ia.1) (pick ia.1) st ia.2) st).x =
        matShape x ∧
      matShape (L.foldl (fun st ia => shakeStep p (coin ia.1) (pick ia.1) st ia.2) st).h =
        matShape h ∧
      (∀ i, i < p.n →
        somaBasesAtivo p
          (L.foldl (fun st ia => shakeStep p (coin ia.1) (pick ia.1) st ia.2) st).x i = 1 ∧
        somaEquipesAtivo p
          (L.foldl (fun st ia => shakeStep p (coin ia.1) (pick ia.1) st ia.2) st).h i = 1) ∧
      (∀ i j, i < p.n → j < p.m →
        getE (L.foldl (fun st ia => shakeStep p (coin ia.1) (pick ia.1) st ia.2) st).x i j =
          true →
        getE x i j = false →
        0 < equipesNaBase p y j ∧
          ∃ k, k < p.s ∧
            getE (L.foldl (fun st ia => shakeStep p (coin ia.1) (pick ia.1) st ia.2) st).h
              i k = true ∧
            getE y j k = true) := by
  intro L
  induction L with
  | nil =>
    intro st h1 h2 h3 h4 h5
    exact ⟨h1, h2, h3, h4, h5⟩
  | cons ia t ih =>
    intro st h1 h2 h3 h4 h5
    rw [List.foldl_cons]
    obtain ⟨g1, g2, g3, g4, g5⟩ :=
      shakeStep_preserves p x y h hsh (coin ia.1) (pick ia.1) st ia.2 h1 h2 h3 h4 h5
    exact ih (shakeStep p (coin ia.1) (pick ia.1) st ia.2) g1 g2 g3 g4 g5

/-- Claim C7 (confirmed): for an intensity in `[0, 1]`, a solution with each
asset at exactly one base and in exactly one team, and at least one base
hosting a team, `shake_adaptativo` perturbs exactly
`min(max(5, floor(n_ativos * intensity * 0.15)), n_ativos / 3)` distinct
assets, never touches the team-placement matrix, moves an asset only to a
base already hosting a team (putting it on a team of that base — the one of
least current load), and returns a solution in which every asset still lies
in exactly one base and exactly one team. -/
theorem c7_shake_adaptativo (p : Prob) (x y h : Mat) (intensidade : ℚ)
    (perm : List Nat) (coin : Nat → Bool) (pick : Nat → Nat)
    (hsh : shapeOk p x y h)
    (hx : ∀ i, i < p.n → somaBasesAtivo p x i = 1)
    (hhone : ∀ i, i < p.n → somaEquipesAtivo p h i = 1)
    (hperm : List.Perm perm (List.range p.n))
    (hint : 0 ≤ intensidade ∧ intensidade ≤ 1)
    (hteam : ∃ j, j < p.m ∧ 0 < equipesNaBase p y j) :
    ((perm.take (shakeN p intensidade)).length =
      min (max 5 (Int.toNat ⌊(p.n : ℚ) * intensidade * (15 / 100)⌋)) (p.n / 3) ∧
      (perm.take (shakeN p intensidade)).Nodup) ∧
    (shake_adaptativo p ⟨x, y, h⟩ intensidade perm coin pick).y = y ∧
    (∀ i j, i < p.n → j < p.m →
      getE (shake_adaptativo p ⟨x, y, h⟩ intensidade perm coin pick).x i j = true →
      getE x i j = false →
      0 < equipesNaBase p y j ∧
        ∃ k, k < p.s ∧
          getE (shake_adaptativo p ⟨x, y, h⟩ intensidade perm coin pick).h i k = true ∧
          getE y j k = true) ∧
    (∀ i, i < p.n →
      somaBasesAtivo p (shake_adaptativo p ⟨x, y, h⟩ intensidade perm coin pick).x i = 1 ∧
      somaEquipesAtivo p (shake_adaptativo p ⟨x, y, h⟩ intensidade perm coin pick).h i = 1) ∧
    (∀ (st : Sol) (i nb : Nat), equipesDaBase p st.y nb ≠ [] →
      ∃ k, k ∈ equipesDaBase p st.y nb ∧
        (∀ kOther, kOther ∈ equipesDaBase p st.y nb →
          ativosEquipe p (shakeRemovedH p st.h i) k ≤
            ativosEquipe p (shakeRemovedH p st.h i) kOther) ∧
        (shakeMove p st i nb).h = setE (shakeRemovedH p st.h i) i k true) := by
  have hpermlen : perm.length = p.n := by
    rw [hperm.length_eq, List.length_range]
  have hNle : shakeN p intensidade ≤ p.n := by
    have h1 : shakeN p intensidade ≤ p.n / 3 := Nat.min_le_right _ _
    omega
  refine ⟨⟨?_, ?_⟩, ?_⟩
  · rw [List.length_take, hpermlen]
    exact Nat.min_eq_left hNle
  · exact (List.take_sublist _ _).nodup (hperm.nodup_iff.mpr (List.nodup_range p.n))
  · obtain ⟨g1, g2, g3, g4, g5⟩ := shakeFold_preserves p x y h hsh coin pick
      ((perm.take (shakeN p intensidade)).enum) ⟨x, y, h⟩ rfl rfl rfl
      (fun i hi => ⟨hx i hi, hhone i hi⟩)
      (fun i j _ _ htrue hfalse => absurd htrue (by rw [hfalse]; exact Bool.false_ne_true))
    refine ⟨g1, g5, g4, ?_⟩
    intro st i nb hne
    refine ⟨argminList (fun k => ativosEquipe p (shakeRemovedH p st.h i) k)
      (equipesDaBase p st.y nb), argminList_mem _ _ hne,
      fun kOther hkO => argminList_le _ _ kOther hkO, ?_⟩
    unfold shakeMove
    rw [if_pos hne]

end ClaimC7

/-- Witness for C7 at the concrete 2-asset, 1-base, 1-team instance with
intensity 1/2. -/
theorem c7_shake_adaptativo_witness :
    shapeOk probW xW yW hW ∧
    (∀ i, i < probW.n → somaBasesAtivo probW xW i = 1) ∧
    (∀ i, i < probW.n → somaEquipesAtivo probW hW i = 1) ∧
    List.Perm [0, 1] (List.range probW.n) ∧
    ((0 : ℚ) ≤ 1 / 2 ∧ (1 : ℚ) / 2 ≤ 1) ∧
    (∃ j, j < probW.m ∧ 0 < equipesNaBase probW yW j) ∧
    ((([0, 1] : List Nat).take (shakeN probW (1 / 2))).length =
        min (max 5 (Int.toNat ⌊(probW.n : ℚ) * (1 / 2) * (15 / 100)⌋)) (probW.n / 3) ∧
      (([0, 1] : List Nat).take (shakeN probW (1 / 2))).Nodup) ∧
    (shake_adaptativo probW ⟨xW, yW, hW⟩ (1 / 2) [0, 1] (fun _ => true)
        (fun _ => 0)).y = yW :=
  ⟨by constructor; · with_unfolding_all decide
      all_goals constructor
      · with_unfolding_all decide
      all_goals constructor <;> with_unfolding_all decide,
   by with_unfolding_all decide, by with_unfolding_all decide,
   by with_unfolding_all decide, by with_unfolding_all decide,
   ⟨0, by with_unfolding_all decide⟩,
   (c7_shake_adaptativo probW xW yW hW (1 / 2) [0, 1] (fun _ => true) (fun _ => 0)
     (by constructor; · with_unfolding_all decide
         all_goals constructor
         · with_unfolding_all decide
         all_goals constructor <;> with_unfolding_all decide)
     (by with_unfolding_all decide) (by with_unfolding_all decide)
     (by with_unfolding_all decide) (by with_unfolding_all decide)
     ⟨0, by with_unfolding_all decide⟩).1,
   ((c7_shake_adaptativo probW xW yW hW (1 / 2) [0, 1] (fun _ => true) (fun _ => 0)
     (by constructor; · with_unfolding_all decide
         all_goals constructor
         · with_unfolding_all decide
         all_goals constructor <;> with_unfolding_all decide)
     (by with_unfolding_all decide) (by with_unfolding_all decide)
     (by with_unfolding_all decide) (by with_unfolding_all decide)
     ⟨0, by with_unfolding_all decide⟩).2).1⟩


section ClaimC8

/-- Claim C8, counterexample to the claim as stated: with the degenerate
bounds `f1_min = f1_max = 0`, two solutions with raw `f1` values 0 and 1
both normalize to weighted objective 0, so `weighted_sum_objective` with
`w1 = 1, w2 = 0` does not rank them as raw `f1` does. -/
theorem c8_claim_counterexample :
    ¬ ((calcular_objetivo_pw probC8 solC8a.x solC8a.y solC8a.h 1 0 0 0 0 1).1 <
        (calcular_objetivo_pw probC8 solC8b.x solC8b.y solC8b.h 1 0 0 0 0 1).1) ∧
    (calcular_objetivo_pw probC8 solC8a.x solC8a.y solC8a.h 1 0 0 0 0 1).2.1 <
      (calcular_objetivo_pw probC8 solC8b.x solC8b.y solC8b.h 1 0 0 0 0 1).2.1 := by
  constructor
  · with_unfolding_all decide
  · with_unfolding_all decide

/-- Claim C8 (amended): provided the `f1` normalization range is not
degenerate (`f1_max - f1_min > 1e-10`), `calcular_objetivo_pw` with
`w1 = 1, w2 = 0` ranks any two solutions exactly as raw `f1` does. -/
theorem c8_weighted_sum_ranks_by_f1 (p : Prob) (a b : Sol)
    (f1mn f1mx f2mn f2mx : ℚ) (hrange : 1 / 10 ^ 10 < f1mx - f1mn) :
    (calcular_objetivo_pw p a.x a.y a.h 1 0 f1mn f1mx f2mn f2mx).1 <
      (calcular_objetivo_pw p b.x b.y b.h 1 0 f1mn f1mx f2mn f2mx).1 ↔
    (calcular_objetivo_pw p a.x a.y a.h 1 0 f1mn f1mx f2mn f2mx).2.1 <
      (calcular_objetivo_pw p b.x b.y b.h 1 0 f1mn f1mx f2mn f2mx).2.1 := by
  have hD : (0 : ℚ) < f1mx - f1mn := by
    have hpos : (0 : ℚ) < 1 / 10 ^ 10 := by norm_num
    linarith
  simp only [calcular_objetivo_pw, normalize_objectives, if_pos hrange,
    one_mul, zero_mul, add_zero]
  rw [div_lt_div_iff_of_pos_right hD, sub_lt_sub_iff_right]

/-- Witness for C8 at the concrete instance with bounds `0 ≤ f1 ≤ 1`. -/
theorem c8_weighted_sum_ranks_by_f1_witness :
    (1 : ℚ) / 10 ^ 10 < 1 - 0 ∧
    ((calcular_objetivo_pw probC8 solC8a.x solC8a.y solC8a.h 1 0 0 1 0 1).1 <
      (calcular_objetivo_pw probC8 solC8b.x solC8b.y solC8b.h 1 0 0 1 0 1).1 ↔
     (calcular_objetivo_pw probC8 solC8a.x solC8a.y solC8a.h 1 0 0 1 0 1).2.1 <
      (calcular_objetivo_pw probC8 solC8b.x solC8b.y solC8b.h 1 0 0 1 0 1).2.1) :=
  ⟨by with_unfolding_all decide,
    c8_weighted_sum_ranks_by_f1 probC8 solC8a solC8b 0 1 0 1
      (by with_unfolding_all decide)⟩

end ClaimC8

section ClaimC9

/-- Claim C9 (confirmed): `nondominatedsolutions` returns exactly the
ascending indices of the rows not dominated by any other row (domination:
weakly better in both objectives, strictly better in at least one, under
minimization), and on `[(1,5),(2,4),(3,3),(4,2),(5,1),(3,5)]` it returns
the indices of the first five points and excludes `(3,5)`. -/
theorem c9_nondominated :
    (∀ (objectives : List (List ℚ)) (i : Nat),
      i ∈ nondominatedsolutions objectives ↔
        i < objectives.length ∧
        ∀ j, j < objectives.length → j ≠ i →
          ¬ domina (objectives.getD j []) (objectives.getD i []) = true) ∧
    nondominatedsolutions
        [[1, 5], [2, 4], [3, 3], [4, 2], [5, 1], [3, 5]] = [0, 1, 2, 3, 4] := by
  constructor
  · intro objectives i
    rw [nondominatedsolutions, List.mem_filter, List.mem_range,
      Bool.not_eq_true', List.any_eq_false]
    constructor
    · rintro ⟨hi, hall⟩
      refine ⟨hi, fun j hj hji hdom => ?_⟩
      exact hall j (List.mem_range.mpr hj)
        (by rw [hdom, Bool.and_true]; exact decide_eq_true hji)
    · rintro ⟨hi, hall⟩
      refine ⟨hi, fun j hjmem hcontra => ?_⟩
      rw [Bool.and_eq_true] at hcontra
      exact hall j (List.mem_range.mp hjmem)
        (of_decide_eq_true hcontra.1) hcontra.2
  · with_unfolding_all decide

/-- Witness for C9: index 0 of the concrete instance is unmarked and
undominated. -/
theorem c9_nondominated_witness :
    0 < ([[1, 5], [2, 4], [3, 3], [4, 2], [5, 1], [3, 5]] : List (List ℚ)).length ∧
    (∀ j, j < ([[1, 5], [2, 4], [3, 3], [4, 2], [5, 1], [3, 5]] : List (List ℚ)).length →
      j ≠ 0 →
      ¬ domina (([[1, 5], [2, 4], [3, 3], [4, 2], [5, 1], [3, 5]] :
          List (List ℚ)).getD j [])
        (([[1, 5], [2, 4], [3, 3], [4, 2], [5, 1], [3, 5]] : List (List ℚ)).getD 0 []) =
        true) ∧
    0 ∈ nondominatedsolutions [[1, 5], [2, 4], [3, 3], [4, 2], [5, 1], [3, 5]] :=
  ⟨by with_unfolding_all decide, by with_unfolding_all decide,
    (c9_nondominated.1 [[1, 5], [2, 4], [3, 3], [4, 2], [5, 1], [3, 5]] 0).mpr
      ⟨by with_unfolding_all decide, by with_unfolding_all decide⟩⟩

end ClaimC9


section ClaimC4

lemma consolidate_val (p : Prob) (o : Obj) (x y h : Mat) :
    (consolidate_equipes p o x y h).2.1 =
      objVal p o (consolidate_equipes p o x y h).1 := by
  unfold consolidate_equipes
  by_cases ho : o = Obj.f2
  · subst ho
    rw [if_pos rfl]
    by_cases hact : 1 < (equipesAtivas p h).length
    · rw [if_pos hact]
      cases hfind : (consolidateOutras p y h).find? (consolidatePred p x y h) with
      | some dest => simp only [hfind]
      | none =>
        simp only [hfind]
        by_cases hmm : consolidateMaior p h ≠ consolidateMenor p h
        · rw [if_pos hmm]
          by_cases hc : verificar_restricoes p (consolidateCand2 p x y h).x
              (consolidateCand2 p x y h).y (consolidateCand2 p x y h).h = true ∧
              objVal p Obj.f2 (consolidateCand2 p x y h) < calcular_f2 p h
          · rw [if_pos hc]
          · rw [if_neg hc]
        · rw [if_neg hmm]
    · rw [if_neg hact]
  · rw [if_neg ho]

lemma exploreS_returnsIF (p : Prob) (o : Obj) (sam : List Nat) (l : Nat) (sol : Sol) :
    returnsImprovedFeasible p o sol (exploreS p o sam l sol) :=
  match l with
  | 0 => bestFold_operator_spec p o sol (shiftCands p sol.x sol.y sol.h)
  | 1 => bestFold_operator_spec p o sol (taskMoveCands p sol.x sol.y sol.h)
  | 2 => bestFold_operator_spec p o sol (swapCands p sol.x sol.y sol.h sam)
  | 3 => bestFold_operator_spec p o sol (twoOptCands p sol.x sol.y sol.h)
  | _ + 4 => consolidate_spec p o sol.x sol.y sol.h

lemma exploreS_val (p : Prob) (o : Obj) (sam : List Nat) (l : Nat) (sol : Sol) :
    (exploreS p o sam l sol).2.1 = objVal p o (exploreS p o sam l sol).1 :=
  match l with
  | 0 => (bestFold_spec p o sol (shiftCands p sol.x sol.y sol.h)).1
  | 1 => (bestFold_spec p o sol (taskMoveCands p sol.x sol.y sol.h)).1
  | 2 => (bestFold_spec p o sol (swapCands p sol.x sol.y sol.h sam)).1
  | 3 => (bestFold_spec p o sol (twoOptCands p sol.x sol.y sol.h)).1
  | _ + 4 => consolidate_val p o sol.x sol.y sol.h

lemma tournament_accepts_improving (p : Prob) (o : Obj) (a b : Sol)
    (hb : violSol p b = 0) (hobj : objVal p o b < objVal p o a) :
    (tournament_selection p o a b).2 = true := by
  unfold tournament_selection
  by_cases ha : violSol p a = 0
  · rw [if_pos ⟨ha, hb⟩, if_pos hobj]
  · have hpos : 0 < violSol p a :=
      lt_of_le_of_ne (violSol_nonneg p a) (Ne.symm ha)
    rw [if_neg (fun hcon : violSol p a = 0 ∧ violSol p b = 0 => ha hcon.1),
      if_pos ⟨hb, hpos⟩]

lemma exploreS_reject_iff (p : Prob) (o : Obj) (sam : List Nat) (l : Nat) (sol : Sol) :
    (tournament_selection p o sol (exploreS p o sam l sol).1).2 = false ↔
    (exploreS p o sam l sol).2.2 = false := by
  constructor
  · intro hrej
    by_contra himp
    rw [Bool.not_eq_false] at himp
    obtain ⟨hfeas, hlt⟩ := (exploreS_returnsIF p o sam l sol).1 himp
    rw [tournament_accepts_improving p o sol _ hfeas hlt] at hrej
    exact Bool.noConfusion hrej
  · intro himp
    rw [(exploreS_returnsIF p o sam l sol).2 himp]
    exact tournament_self_reject p o sol

lemma swapCands_perm_mem (p : Prob) (x y h : Mat) (s1 s2 : List Nat)
    (hp : List.Perm s1 s2) (c : Sol) :
    c ∈ swapCands p x y h s1 ↔ c ∈ swapCands p x y h s2 := by
  unfold swapCands
  rw [List.mem_flatMap, List.mem_flatMap]
  constructor
  · rintro ⟨i, hi, hci⟩
    exact ⟨i, hp.mem_iff.mp hi, hci⟩
  · rintro ⟨i, hi, hci⟩
    exact ⟨i, hp.mem_iff.mpr hi, hci⟩

lemma exploreS_reject_transfer (p : Prob) (o : Obj) (sol : Sol) (l : Nat)
    (s1 s2 : List Nat) (hp : List.Perm s1 s2)
    (hrej : (tournament_selection p o sol (exploreS p o s1 l sol).1).2 = false) :
    (tournament_selection p o sol (exploreS p o s2 l sol).1).2 = false := by
  revert hrej
  match l with
  | 0 => exact id
  | 1 => exact id
  | 3 => exact id
  | _ + 4 => exact id
  | 2 =>
    intro hrej
    rw [exploreS_reject_iff] at hrej ⊢
    have h1 : (bestFold p o sol (swapCands p sol.x sol.y sol.h s1)).imp = false := hrej
    show (bestFold p o sol (swapCands p sol.x sol.y sol.h s2)).imp = false
    by_contra himp
    rw [Bool.not_eq_false] at himp
    obtain ⟨c, hc, hcp⟩ :=
      (bestFold_imp_iff p o sol (swapCands p sol.x sol.y sol.h s2)).mp himp
    have hc1 : c ∈ swapCands p sol.x sol.y sol.h s1 :=
      (swapCands_perm_mem p sol.x sol.y sol.h s1 s2 hp c).mpr hc
    have himp1 := (bestFold_imp_iff p o sol (swapCands p sol.x sol.y sol.h s1)).mpr
      ⟨c, hc1, hcp⟩
    rw [h1] at himp1
    exact Bool.noConfusion himp1

lemma vndStep_accept (p : Prob) (o : Obj) (sampler : Nat → List Nat) (st : VndSt)
    (hacc : (tournament_selection p o st.sol
      (exploreS p o (sampler st.t) st.l st.sol).1).2 = true) :
    vndStep p o sampler st =
      ⟨(tournament_selection p o st.sol
          (exploreS p o (sampler st.t) st.l st.sol).1).1,
        (exploreS p o (sampler st.t) st.l st.sol).2.1, 0, st.t + 1⟩ := by
  unfold vndStep
  rw [if_pos hacc]

lemma vndStep_reject (p : Prob) (o : Obj) (sampler : Nat → List Nat) (st : VndSt)
    (hacc : (tournament_selection p o st.sol
      (exploreS p o (sampler st.t) st.l st.sol).1).2 = false) :
    vndStep p o sampler st = ⟨st.sol, st.val, st.l + 1, st.t + 1⟩ := by
  unfold vndStep
  rw [if_neg (by rw [hacc]; exact Bool.false_ne_true)]

lemma vndFuel_local_opt (p : Prob) (o : Obj) (sampler : Nat → List Nat) :
    ∀ (fuel : Nat) (st : VndSt) (s' : Sol) (v' : ℚ),
      vndFuel p o sampler fuel st = some (s', v') →
      st.val = objVal p o st.sol →
      (∀ l, l < st.l → ∃ t,
        (tournament_selection p o st.sol
          (exploreS p o (sampler t) l st.sol).1).2 = false) →
      v' = objVal p o s' ∧
      ∀ l, l < lmax o → ∃ t,
        (tournament_selection p o s'
          (exploreS p o (sampler t) l s').1).2 = false := by
  intro fuel
  induction fuel with
  | zero =>
    intro st s' v' hout hval hrej
    simp only [vndFuel] at hout
    by_cases hdone : lmax o ≤ st.l
    · rw [if_pos hdone] at hout
      injection hout with he
      rw [Prod.mk.injEq] at he
      obtain ⟨h1, h2⟩ := he
      subst h1
      subst h2
      exact ⟨hval.symm ▸ rfl, fun l hl => hrej l (Nat.lt_of_lt_of_le hl hdone)⟩
    · rw [if_neg hdone] at hout
      cases hout
  | succ fuel ih =>
    intro st s' v' hout hval hrej
    simp only [vndFuel] at hout
    by_cases hdone : lmax o ≤ st.l
    · rw [if_pos hdone] at hout
      injection hout with he
      rw [Prod.mk.injEq] at he
      obtain ⟨h1, h2⟩ := he
      subst h1
      subst h2
      exact ⟨hval.symm ▸ rfl, fun l hl => hrej l (Nat.lt_of_lt_of_le hl hdone)⟩
    · rw [if_neg hdone] at hout
      by_cases hacc : (tournament_selection p o st.sol
          (exploreS p o (sampler st.t) st.l st.sol).1).2 = true
      · rw [vndStep_accept p o sampler st hacc] at hout
        refine ih _ s' v' hout ?_ ?_
        · show (exploreS p o (sampler st.t) st.l st.sol).2.1 =
            objVal p o (tournament_selection p o st.sol
              (exploreS p o (sampler st.t) st.l st.sol).1).1
          rw [(tournament_accept_facts p o st.sol _ hacc).2]
          exact exploreS_val p o (sampler st.t) st.l st.sol
        · intro l hl
          exact absurd hl (Nat.not_lt_zero l)
      · rw [Bool.not_eq_true] at hacc
        rw [vndStep_reject p o sampler st hacc] at hout
        refine ih _ s' v' hout hval ?_
        intro l hl
        rcases Nat.lt_succ_iff_lt_or_eq.mp hl with hlt | heq
        · exact hrej l hlt
        · subst heq
          exact ⟨st.t, hacc⟩

lemma vndFuel_rejects_fixed (p : Prob) (o : Obj) (sampler : Nat → List Nat) (s' : Sol)
    (hrej : ∀ l t, l < lmax o →
      (tournament_selection p o s' (exploreS p o (sampler t) l s').1).2 = false) :
    ∀ (fuel l t : Nat) (out : Sol × ℚ),
      vndFuel p o sampler fuel ⟨s', objVal p o s', l, t⟩ = some out →
      out = (s', objVal p o s') := by
  intro fuel
  induction fuel with
  | zero =>
    intro l t out hout
    simp only [vndFuel] at hout
    by_cases hdone : lmax o ≤ l
    · rw [if_pos hdone] at hout
      injection hout with he
      exact he.symm
    · rw [if_neg hdone] at hout
      cases hout
  | succ fuel ih =>
    intro l t out hout
    simp only [vndFuel] at hout
    by_cases hdone : lmax o ≤ l
    · rw [if_pos hdone] at hout
      injection hout with he
      exact he.symm
    · rw [if_neg hdone] at hout
      have hlt : l < lmax o := Nat.lt_of_not_le hdone
      rw [vndStep_reject p o sampler ⟨s', objVal p o s', l, t⟩ (hrej l t hlt)] at hout
      exact ih (l + 1) (t + 1) out hout

lemma vndFuel_step (p : Prob) (o : Obj) (sampler : Nat → List Nat) (fuel : Nat)
    (st : VndSt) (hl : ¬ lmax o ≤ st.l) :
    vndFuel p o sampler (fuel + 1) st =
      vndFuel p o sampler fuel (vndStep p o sampler st) := by
  simp only [vndFuel]
  rw [if_neg hl]

lemma vndFuel_exit (p : Prob) (o : Obj) (sampler : Nat → List Nat) (fuel : Nat)
    (st : VndSt) (hl : lmax o ≤ st.l) :
    vndFuel p o sampler fuel st = some (st.sol, st.val) := by
  cases fuel with
  | zero =>
    simp only [vndFuel]
    rw [if_pos hl]
  | succ fuel =>
    simp only [vndFuel]
    rw [if_pos hl]

lemma vndStep_reject_mk (p : Prob) (o : Obj) (sampler : Nat → List Nat)
    (sol : Sol) (v : ℚ) (l t : Nat)
    (hrej : (tournament_selection p o sol (exploreS p o (sampler t) l sol).1).2 = false) :
    vndStep p o sampler ⟨sol, v, l, t⟩ = ⟨sol, v, l + 1, t + 1⟩ := by
  simp only [vndStep]
  rw [if_neg (by rw [hrej]; exact Bool.false_ne_true)]

lemma vndStep_accept_mk (p : Prob) (o : Obj) (sampler : Nat → List Nat)
    (sol : Sol) (v : ℚ) (l t : Nat)
    (hacc : (tournament_selection p o sol (exploreS p o (sampler t) l sol).1).2 = true) :
    vndStep p o sampler ⟨sol, v, l, t⟩ =
      ⟨(tournament_selection p o sol (exploreS p o (sampler t) l sol).1).1,
        (exploreS p o (sampler t) l sol).2.1, 0, t + 1⟩ := by
  simp only [vndStep]
  rw [if_pos hacc]

/-- Claim C4 (amended): `variable_neighborhood_descent` is idempotent at a
local optimum provided every random swap sample enumerates all assets — as
`np.random.choice(n, min(20, n), replace=False)` does exactly when
`n_ativos ≤ 20`.  Under that hypothesis, if a first VND run returns the
solution `s'` with value `v'`, then any second VND run started from `s'`
that terminates returns exactly `(s', v')`.  (For `n_ativos > 20` the swap
neighbourhood looks at a random strict subset of the assets, and a second
run can escape the first run's output; see the counterexample.) -/
theorem c4_vnd_idempotent (p : Prob) (o : Obj) (sampler1 sampler2 : Nat → List Nat)
    (fuel1 fuel2 t1 t2 : Nat) (s s' : Sol) (v' : ℚ) (out : Sol × ℚ)
    (hv1 : ∀ t, validSample p (sampler1 t))
    (hv2 : ∀ t, validSample p (sampler2 t))
    (h1 : vndFuel p o sampler1 fuel1 (vndInit p o s t1) = some (s', v'))
    (h2 : vndFuel p o sampler2 fuel2 (vndInit p o s' t2) = some out) :
    out = (s', v') := by
  obtain ⟨hval, hrej1⟩ := vndFuel_local_opt p o sampler1 fuel1 (vndInit p o s t1) s' v'
    h1 rfl (fun l hl => absurd hl (Nat.not_lt_zero l))
  have hrej2 : ∀ l t, l < lmax o →
      (tournament_selection p o s' (exploreS p o (sampler2 t) l s').1).2 = false := by
    intro l t hl
    obtain ⟨ta, hrejt⟩ := hrej1 l hl
    exact exploreS_reject_transfer p o s' l (sampler1 ta) (sampler2 t)
      (List.Perm.trans (hv1 ta) (List.Perm.symm (hv2 t))) hrejt
  have hout := vndFuel_rejects_fixed p o sampler2 s' hrej2 fuel2 0 t2 out h2
  rw [hout, hval]

/-- Witness for C4 at the 2-asset, 1-base, 1-team instance with the full
sample `[0, 1]` on both runs. -/
theorem c4_vnd_idempotent_witness :
    (∀ t : Nat, validSample probW ((fun _ : Nat => [0, 1]) t)) ∧
    vndFuel probW Obj.f1 (fun _ => [0, 1]) 5 (vndInit probW Obj.f1 ⟨xW, yW, hW⟩ 0) =
      some (⟨xW, yW, hW⟩, 0) ∧
    ((⟨xW, yW, hW⟩, 0) : Sol × ℚ) = (⟨xW, yW, hW⟩, (0 : ℚ)) :=
  ⟨fun t => show validSample probW [0, 1] by with_unfolding_all decide,
   by with_unfolding_all decide,
   c4_vnd_idempotent probW Obj.f1 (fun _ => [0, 1]) (fun _ => [0, 1]) 5 5 0 0
     ⟨xW, yW, hW⟩ ⟨xW, yW, hW⟩ 0 (⟨xW, yW, hW⟩, 0)
     (fun t => show validSample probW [0, 1] by with_unfolding_all decide)
     (fun t => show validSample probW [0, 1] by with_unfolding_all decide)
     (by with_unfolding_all decide) (by with_unfolding_all decide)⟩

set_option maxRecDepth 8000 in
set_option maxHeartbeats 2000000 in
/-- Claim C4, counterexample to the claim as stated: with 21 assets the
swap neighbourhood samples only 20 of them, so VND is not idempotent at its
own output.  A first run whose samples miss asset 0 returns its input
`solC4` unchanged, while a second run on that very output, whose samples
contain asset 0, escapes to the strictly better solution `solC4b`. -/
theorem c4_claim_counterexample :
    vndFuel probC4 Obj.f1 samplerC4a 5 (vndInit probC4 Obj.f1 solC4 0) =
      some (solC4, 10) ∧
    vndFuel probC4 Obj.f1 samplerC4b 8 (vndInit probC4 Obj.f1 solC4 0) =
      some (solC4b, 5) ∧
    solC4b ≠ solC4 := by
  have h0a : vndInit probC4 Obj.f1 solC4 0 = ⟨solC4, 10, 0, 0⟩ := by
    with_unfolding_all decide
  refine ⟨?_, ?_, by with_unfolding_all decide⟩
  · rw [h0a]
    have hj0 : (exploreS probC4 Obj.f1 (samplerC4a 0) 0 solC4).2.2 = false := by
      with_unfolding_all decide
    have hj1 : (exploreS probC4 Obj.f1 (samplerC4a 1) 1 solC4).2.2 = false := by
      with_unfolding_all decide
    have hj2 : (exploreS probC4 Obj.f1 (samplerC4a 2) 2 solC4).2.2 = false := by
      with_unfolding_all decide
    have hj3 : (exploreS probC4 Obj.f1 (samplerC4a 3) 3 solC4).2.2 = false := by
      with_unfolding_all decide
    refine (vndFuel_step probC4 Obj.f1 samplerC4a 4 ⟨solC4, 10, 0, 0⟩
      (by with_unfolding_all decide)).trans ?_
    rw [vndStep_reject_mk probC4 Obj.f1 samplerC4a solC4 10 0 0
      ((exploreS_reject_iff probC4 Obj.f1 (samplerC4a 0) 0 solC4).mpr hj0)]
    refine (vndFuel_step probC4 Obj.f1 samplerC4a 3 ⟨solC4, 10, 1, 1⟩
      (by with_unfolding_all decide)).trans ?_
    rw [vndStep_reject_mk probC4 Obj.f1 samplerC4a solC4 10 1 1
      ((exploreS_reject_iff probC4 Obj.f1 (samplerC4a 1) 1 solC4).mpr hj1)]
    refine (vndFuel_step probC4 Obj.f1 samplerC4a 2 ⟨solC4, 10, 2, 2⟩
      (by with_unfolding_all decide)).trans ?_
    rw [vndStep_reject_mk probC4 Obj.f1 samplerC4a solC4 10 2 2
      ((exploreS_reject_iff probC4 Obj.f1 (samplerC4a 2) 2 solC4).mpr hj2)]
    refine (vndFuel_step probC4 Obj.f1 samplerC4a 1 ⟨solC4, 10, 3, 3⟩
      (by with_unfolding_all decide)).trans ?_
    rw [vndStep_reject_mk probC4 Obj.f1 samplerC4a solC4 10 3 3
      ((exploreS_reject_iff probC4 Obj.f1 (samplerC4a 3) 3 solC4).mpr hj3)]
    exact vndFuel_exit probC4 Obj.f1 samplerC4a 1 ⟨solC4, 10, 4, 4⟩
      (by with_unfolding_all decide)
  · rw [h0a]
    have hk0 : (exploreS probC4 Obj.f1 (samplerC4b 0) 0 solC4).2.2 = false := by
      with_unfolding_all decide
    have hk1 : (exploreS probC4 Obj.f1 (samplerC4b 1) 1 solC4).2.2 = false := by
      with_unfolding_all decide
    have ha1 : (exploreS probC4 Obj.f1 (samplerC4b 2) 2 solC4).1 = solC4b := by
      with_unfolding_all decide
    have ha2 : (exploreS probC4 Obj.f1 (samplerC4b 2) 2 solC4).2.1 = 5 := by
      with_unfolding_all decide
    have hacc : (tournament_selection probC4 Obj.f1 solC4
        (exploreS probC4 Obj.f1 (samplerC4b 2) 2 solC4).1).2 = true := by
      rw [ha1]
      with_unfolding_all decide
    have hstep2 : vndStep probC4 Obj.f1 samplerC4b ⟨solC4, 10, 2, 2⟩ =
        ⟨solC4b, 5, 0, 3⟩ := by
      rw [vndStep_accept_mk probC4 Obj.f1 samplerC4b solC4 10 2 2 hacc,
        (tournament_accept_facts probC4 Obj.f1 solC4
          (exploreS probC4 Obj.f1 (samplerC4b 2) 2 solC4).1 hacc).2, ha1, ha2]
    have hk3 : (exploreS probC4 Obj.f1 (samplerC4b 3) 0 solC4b).2.2 = false := by
      with_unfolding_all decide
    have hk4 : (exploreS probC4 Obj.f1 (samplerC4b 4) 1 solC4b).2.2 = false := by
      with_unfolding_all decide
    have hk5 : (exploreS probC4 Obj.f1 (samplerC4b 5) 2 solC4b).2.2 = false := by
      with_unfolding_all decide
    have hk6 : (exploreS probC4 Obj.f1 (samplerC4b 6) 3 solC4b).2.2 = false := by
      with_unfolding_all decide
    refine (vndFuel_step probC4 Obj.f1 samplerC4b 7 ⟨solC4, 10, 0, 0⟩
      (by with_unfolding_all decide)).trans ?_
    rw [vndStep_reject_mk probC4 Obj.f1 samplerC4b solC4 10 0 0
      ((exploreS_reject_iff probC4 Obj.f1 (samplerC4b 0) 0 solC4).mpr hk0)]
    refine (vndFuel_step probC4 Obj.f1 samplerC4b 6 ⟨solC4, 10, 1, 1⟩
      (by with_unfolding_all decide)).trans ?_
    rw [vndStep_reject_mk probC4 Obj.f1 samplerC4b solC4 10 1 1
      ((exploreS_reject_iff probC4 Obj.f1 (samplerC4b 1) 1 solC4).mpr hk1)]
    refine (vndFuel_step probC4 Obj.f1 samplerC4b 5 ⟨solC4, 10, 2, 2⟩
      (by with_unfolding_all decide)).trans ?_
    rw [hstep2]
    refine (vndFuel_step probC4 Obj.f1 samplerC4b 4 ⟨solC4b, 5, 0, 3⟩
      (by with_unfolding_all decide)).trans ?_
    rw [vndStep_reject_mk probC4 Obj.f1 samplerC4b solC4b 5 0 3
      ((exploreS_reject_iff probC4 Obj.f1 (samplerC4b 3) 0 solC4b).mpr hk3)]
    refine (vndFuel_step probC4 Obj.f1 samplerC4b 3 ⟨solC4b, 5, 1, 4⟩
      (by with_unfolding_all decide)).trans ?_
    rw [vndStep_reject_mk probC4 Obj.f1 samplerC4b solC4b 5 1 4
      ((exploreS_reject_iff probC4 Obj.f1 (samplerC4b 4) 1 solC4b).mpr hk4)]
    refine (vndFuel_step probC4 Obj.f1 samplerC4b 2 ⟨solC4b, 5, 2, 5⟩
      (by with_unfolding_all decide)).trans ?_
    rw [vndStep_reject_mk probC4 Obj.f1 samplerC4b solC4b 5 2 5
      ((exploreS_reject_iff probC4 Obj.f1 (samplerC4b 5) 2 solC4b).mpr hk5)]
    refine (vndFuel_step probC4 Obj.f1 samplerC4b 1 ⟨solC4b, 5, 3, 6⟩
      (by with_unfolding_all decide)).trans ?_
    rw [vndStep_reject_mk probC4 Obj.f1 samplerC4b solC4b 5 3 6
      ((exploreS_reject_iff probC4 Obj.f1 (samplerC4b 6) 3 solC4b).mpr hk6)]
    exact vndFuel_exit probC4 Obj.f1 samplerC4b 1 ⟨solC4b, 5, 4, 7⟩
      (by with_unfolding_all decide)

end ClaimC4
